import Mathlib

/-
Verification of the WaveHungerGame combat engine (src/WHG.cpp).

The development shallowly embeds the engine's data model and operations:
`Unit` mirrors the C++ `Unit` class (vital stats, status-effect table,
potions, battle log), the status table is kept as an association list that
is sorted by the enum key, mirroring the iteration order of
`std::map<StatusEffect, int>`, and every operation is translated directly
from the corresponding member function.  Machine integers are modelled as
`Int`; the stat ranges of the game are far from any overflow boundary.
-/

set_option maxHeartbeats 1000000

namespace WHG

/-- Single-quote character, used in battle-log strings such as `X's HP`. -/
def sq : String := (Char.ofNat 39).toString

/-- The `StatusEffect` enum of the source, in declaration order. -/
inductive StatusEffect where
  | NONE
  | POISON
  | BLEED
  | STUN
  | STRENGTH_UP
  | WEAKNESS
  deriving DecidableEq, Repr

/-- Underlying enum value; `std::map<StatusEffect, int>` orders its entries
by this key. -/
def StatusEffect.key : StatusEffect → Nat
  | .NONE => 0
  | .POISON => 1
  | .BLEED => 2
  | .STUN => 3
  | .STRENGTH_UP => 4
  | .WEAKNESS => 5

/-- The global `statusNames` display table. -/
def statusName : StatusEffect → String
  | .NONE => ("None")
  | .POISON => ("Poison")
  | .BLEED => ("Bleed")
  | .STUN => ("Stun")
  | .STRENGTH_UP => ("Strength Up")
  | .WEAKNESS => ("Weakness")

/-- The `Potion` class: a named amount restoring either HP or MP. -/
structure Potion where
  name : String
  amount : Int
  isHealthPotion : Bool
  deriving DecidableEq, Repr

/-- The `Unit` base class (the `equipment` pointer list is display-only in
the source and is not modelled; its stat effects are applied at
acquisition time, see `applyItemEffect`). -/
structure Unit where
  name : String
  maxHealth : Int
  health : Int
  maxMana : Int
  mana : Int
  baseAttack : Int
  currentAttack : Int
  defense : Int
  statusEffects : List (StatusEffect × Int)
  potions : List Potion
  battleLog : List String
  deriving DecidableEq, Repr

/-- `Unit`'s constructor `Unit(n, hp, mp, atk, def)`. -/
def mkUnit (n : String) (hp mp atk defVal : Int) : Unit :=
  { name := n, maxHealth := hp, health := hp, maxMana := mp, mana := mp,
    baseAttack := atk, currentAttack := atk, defense := defVal,
    statusEffects := [], potions := [], battleLog := [] }

def Unit.isAlive (u : Unit) : Bool := u.health > 0

def Unit.addToBattleLog (u : Unit) (message : String) : Unit :=
  { u with battleLog := u.battleLog ++ [message] }

/-- `Unit::takeDamage(dmg, showBlock, source)` — the damage pipeline. -/
def Unit.takeDamage (u : Unit) (dmg : Int) (showBlock : Bool) (source : String) : Unit :=
  let actualDamage := max 1 (dmg - u.defense)
  let prevHealth := u.health
  let newHealth := max 0 (u.health - actualDamage)
  let msg0 := u.name ++ (" took ") ++ toString actualDamage ++ (" damage")
  let msg1 := if source = ("") then msg0 else msg0 ++ (" from ") ++ source
  let msg2 := msg1 ++ ("! [") ++ toString prevHealth ++ (" -> ") ++ toString newHealth
    ++ ("/") ++ toString u.maxHealth ++ (" HP]")
  let u1 := { u with health := newHealth, battleLog := u.battleLog ++ [msg2] }
  if showBlock ∧ 0 < u.defense ∧ actualDamage < dmg then
    u1.addToBattleLog (u.name ++ (" blocked ") ++ toString (dmg - actualDamage) ++ (" damage!"))
  else u1

/-- `Unit::heal(amount)`. -/
def Unit.heal (u : Unit) (amount : Int) : Unit :=
  let newHealth := min u.maxHealth (u.health + amount)
  let healedAmount := newHealth - u.health
  { u with health := newHealth,
           battleLog := u.battleLog ++ [u.name ++ (" healed ") ++ toString healedAmount
             ++ (" HP! (") ++ toString newHealth ++ ("/") ++ toString u.maxHealth ++ (")")] }

/-- `Unit::restoreMana(amount)`. -/
def Unit.restoreMana (u : Unit) (amount : Int) : Unit :=
  let newMana := min u.maxMana (u.mana + amount)
  let restoredAmount := newMana - u.mana
  { u with mana := newMana,
           battleLog := u.battleLog ++ [u.name ++ (" restored ") ++ toString restoredAmount
             ++ (" MP! (") ++ toString newMana ++ ("/") ++ toString u.maxMana ++ (")")] }

/-- `Unit::increaseMaxHealth(amount)`. -/
def Unit.increaseMaxHealth (u : Unit) (amount : Int) : Unit :=
  { u with maxHealth := u.maxHealth + amount, health := u.health + amount,
           battleLog := u.battleLog ++ [u.name ++ sq ++ ("s max HP increased by ")
             ++ toString amount ++ ("!")] }

/-- `Unit::increaseMaxMana(amount)`. -/
def Unit.increaseMaxMana (u : Unit) (amount : Int) : Unit :=
  { u with maxMana := u.maxMana + amount, mana := u.mana + amount,
           battleLog := u.battleLog ++ [u.name ++ sq ++ ("s max MP increased by ")
             ++ toString amount ++ ("!")] }

/-- `Unit::increaseAttack(amount)`. -/
def Unit.increaseAttack (u : Unit) (amount : Int) : Unit :=
  { u with baseAttack := u.baseAttack + amount, currentAttack := u.baseAttack + amount,
           battleLog := u.battleLog ++ [u.name ++ sq ++ ("s attack increased by ")
             ++ toString amount ++ ("!")] }

/-- `Unit::increaseDefense(amount)`. -/
def Unit.increaseDefense (u : Unit) (amount : Int) : Unit :=
  { u with defense := u.defense + amount,
           battleLog := u.battleLog ++ [u.name ++ sq ++ ("s defense increased by ")
             ++ toString amount ++ ("!")] }

/-- Ordered insertion with overwrite: the effect of
`statusEffects[effect] = duration` on a `std::map` whose entries are kept
sorted by `StatusEffect.key`. -/
def insertStatus (e : StatusEffect) (d : Int) : List (StatusEffect × Int) → List (StatusEffect × Int)
  | [] => [(e, d)]
  | p :: rest =>
    if e.key < p.1.key then (e, d) :: p :: rest
    else if e.key = p.1.key then (e, d) :: rest
    else p :: insertStatus e d rest

/-- `Unit::addStatus(effect, duration, source)`. -/
def Unit.addStatus (u : Unit) (e : StatusEffect) (d : Int) (source : String) : Unit :=
  { u with statusEffects := insertStatus e d u.statusEffects,
           battleLog := u.battleLog ++ [source ++ (" applied ") ++ statusName e
             ++ (" to ") ++ u.name ++ ("!")] }

/-- `Unit::hasStatus(effect)`. -/
def Unit.hasStatus (u : Unit) (e : StatusEffect) : Bool :=
  match u.statusEffects.find? (fun p => p.1 == e) with
  | some p => p.2 > 0
  | none => false

/-- `Unit::clearStatus(effect)` (`map::erase`). -/
def Unit.clearStatus (u : Unit) (e : StatusEffect) : Unit :=
  { u with statusEffects := u.statusEffects.filter (fun p => !(p.1 == e)) }

/-- The `switch` in the loop body of `processStatusEffects`. -/
def tickEffect (u : Unit) (e : StatusEffect) : Unit :=
  match e with
  | .POISON => u.takeDamage 5 false ("Poison")
  | .BLEED => u.takeDamage 3 false ("Bleed")
  | .STRENGTH_UP => { u with currentAttack := u.baseAttack + 10 }
  | .WEAKNESS => { u with currentAttack := max 1 (u.baseAttack - 5) }
  | _ => u

/-- One iteration of the first loop of `processStatusEffects`: apply the
per-tick effect, then log expiry when the decremented duration hits 0. -/
def tickAndLog (u : Unit) (p : StatusEffect × Int) : Unit :=
  let u1 := tickEffect u p.1
  if p.2 - 1 ≤ 0 then
    u1.addToBattleLog (u1.name ++ sq ++ ("s ") ++ statusName p.1 ++ (" wore off!"))
  else u1

/-- All durations decremented in place (`--duration`). -/
def decEffects (L : List (StatusEffect × Int)) : List (StatusEffect × Int) :=
  L.map (fun p => (p.1, p.2 - 1))

/-- The `toRemove` list: effects whose decremented duration reached 0. -/
def expiredOf (L : List (StatusEffect × Int)) : List StatusEffect :=
  ((decEffects L).filter (fun p => decide (p.2 ≤ 0))).map Prod.fst

/-- Erasing every key of `rem` from the map (`statusEffects.erase(effect)`). -/
def eraseAll (rem : List StatusEffect) (l : List (StatusEffect × Int)) :
    List (StatusEffect × Int) :=
  rem.foldl (fun acc e => acc.filter (fun q => !(q.1 == e))) l

/-- The removal loop's resets: expiring STRENGTH_UP/WEAKNESS restores
`currentAttack = baseAttack`. -/
def applyResets (rem : List StatusEffect) (u : Unit) : Unit :=
  rem.foldl
    (fun v e =>
      if e = StatusEffect.STRENGTH_UP ∨ e = StatusEffect.WEAKNESS then
        { v with currentAttack := v.baseAttack }
      else v)
    u

/-- `Unit::processStatusEffects()`: iterate the status map in key order
applying each tick, decrement all durations, then erase the expired
entries, resetting `currentAttack` when STRENGTH_UP/WEAKNESS expires. -/
def Unit.processStatusEffects (u : Unit) : Unit :=
  let u1 := u.statusEffects.foldl tickAndLog u
  let u2 := { u1 with statusEffects := eraseAll (expiredOf u.statusEffects) (decEffects u.statusEffects) }
  applyResets (expiredOf u.statusEffects) u2

/-- `n` consecutive status ticks. -/
def applyTicks : Nat → Unit → Unit
  | 0, u => u
  | Nat.succ n, u => applyTicks n u.processStatusEffects

/-- `Unit::usePotion(index)`. -/
def Unit.usePotion (u : Unit) (index : Int) : Bool × Unit :=
  if index < 0 ∨ (u.potions.length : Int) ≤ index then (false, u)
  else
    match u.potions.get? index.toNat with
    | none => (false, u)
    | some potion =>
      let u1 := if potion.isHealthPotion then u.heal potion.amount else u.restoreMana potion.amount
      let u2 := u1.addToBattleLog (u1.name ++ (" used ") ++ potion.name ++ ("!"))
      (true, { u2 with potions := u2.potions.eraseIdx index.toNat })

/-- `Unit::attack(target)` (the boss override has identical semantics). -/
def Unit.attack (a t : Unit) : Unit × Unit :=
  let targetPrevHealth := t.health
  let a1 := a.addToBattleLog (a.name ++ (" attacks ") ++ t.name ++ (" for ")
    ++ toString a.currentAttack ++ (" damage!"))
  let t1 := t.takeDamage a.currentAttack true ("")
  let a2 := a1.addToBattleLog (t1.name ++ sq ++ ("s HP: ") ++ toString targetPrevHealth
    ++ (" -> ") ++ toString t1.health ++ ("/") ++ toString t1.maxHealth)
  (a2, t1)

/-- The four concrete `Unit` subclasses. -/
inductive UnitClass where
  | warrior
  | archer
  | mage
  | boss
  deriving DecidableEq, Repr

/-- The three skill slots. -/
inductive SkillIdx where
  | s1
  | s2
  | s3
  deriving DecidableEq, Repr

/-- Per-class skill mana costs (`getSkillNCost`; the boss constructor fixes
costs 15/20/25). -/
def skillCost : UnitClass → SkillIdx → Int
  | .warrior, .s1 => 15
  | .warrior, .s2 => 10
  | .warrior, .s3 => 20
  | .archer, .s1 => 10
  | .archer, .s2 => 15
  | .archer, .s3 => 20
  | .mage, .s1 => 20
  | .mage, .s2 => 15
  | .mage, .s3 => 25
  | .boss, .s1 => 15
  | .boss, .s2 => 20
  | .boss, .s3 => 25

/-- Skill display names; a boss carries its three names as data. -/
def skillName : UnitClass → String × String × String → SkillIdx → String
  | .warrior, _, .s1 => ("Power Strike")
  | .warrior, _, .s2 => ("Demoralizing Shout")
  | .warrior, _, .s3 => ("Battle Rage")
  | .archer, _, .s1 => ("Poison Arrow")
  | .archer, _, .s2 => ("Piercing Shot")
  | .archer, _, .s3 => ("Double Shot")
  | .mage, _, .s1 => ("Fireball")
  | .mage, _, .s2 => ("Ice Nova")
  | .mage, _, .s3 => ("Life Drain")
  | .boss, nm, .s1 => nm.1
  | .boss, nm, .s2 => nm.2.1
  | .boss, nm, .s3 => nm.2.2

/-- The insufficient-MP log line each `useSkillN` pushes before returning
`false`. -/
def insufficientMsg (cls : UnitClass) (nm : String × String × String)
    (i : SkillIdx) (casterName : String) : String :=
  match cls with
  | .boss => casterName ++ (" doesn") ++ sq ++ ("t have enough MP for ") ++ skillName cls nm i ++ ("!")
  | _ => ("Not enough MP for ") ++ skillName cls nm i ++ ("!")

/-- The HP-snapshot line `X's HP: prev -> new/max` pushed after a damaging
skill. -/
def hpSnapshot (t : Unit) (prev : Int) : String :=
  t.name ++ sq ++ ("s HP: ") ++ toString prev ++ (" -> ") ++ toString t.health
    ++ ("/") ++ toString t.maxHealth

/-- `useSkillN(target)` for every class and slot, translated body by body
from the source.  Returns (success, caster, target). -/
def useSkill (cls : UnitClass) (nm : String × String × String) (i : SkillIdx)
    (c t : Unit) : Bool × Unit × Unit :=
  if c.mana < skillCost cls i then
    (false, c.addToBattleLog (insufficientMsg cls nm i c.name), t)
  else
    let c0 : Unit := { c with mana := c.mana - skillCost cls i }
    match cls, i with
    | .warrior, .s1 =>
      let dmg := c0.currentAttack + 25
      let prev := t.health
      let c1 := c0.addToBattleLog (c0.name ++ (" uses Power Strike on ") ++ t.name
        ++ (" for ") ++ toString dmg ++ (" damage!"))
      let t1 := t.takeDamage dmg true ("")
      (true, c1.addToBattleLog (hpSnapshot t1 prev), t1)
    | .warrior, .s2 =>
      let prevAtk := t.currentAttack
      let c1 := c0.addToBattleLog (c0.name ++ (" uses Demoralizing Shout on ") ++ t.name ++ ("!"))
      let t1 := t.addStatus StatusEffect.WEAKNESS 3 c0.name
      (true, c1.addToBattleLog (t1.name ++ sq ++ ("s ATK: ") ++ toString prevAtk
        ++ (" -> ") ++ toString t1.currentAttack), t1)
    | .warrior, .s3 =>
      let prevAtk := c0.currentAttack
      let c1 := c0.addToBattleLog (c0.name ++ (" enters Battle Rage!"))
      let c2 := c1.addStatus StatusEffect.STRENGTH_UP 3 c1.name
      (true, c2.addToBattleLog (c2.name ++ sq ++ ("s ATK: ") ++ toString prevAtk
        ++ (" -> ") ++ toString c2.currentAttack), t)
    | .archer, .s1 =>
      let dmg := c0.currentAttack
      let prev := t.health
      let c1 := c0.addToBattleLog (c0.name ++ (" shoots Poison Arrow at ") ++ t.name
        ++ (" for ") ++ toString dmg ++ (" damage!"))
      let t1 := (t.takeDamage dmg true ("")).addStatus StatusEffect.POISON 3 c0.name
      (true, c1.addToBattleLog (hpSnapshot t1 prev), t1)
    | .archer, .s2 =>
      let dmg := c0.currentAttack + 10
      let prev := t.health
      let c1 := c0.addToBattleLog (c0.name ++ (" uses Piercing Shot on ") ++ t.name
        ++ (" for ") ++ toString dmg ++ (" damage!"))
      let t1 := (t.takeDamage dmg true ("")).addStatus StatusEffect.BLEED 2 c0.name
      (true, c1.addToBattleLog (hpSnapshot t1 prev), t1)
    | .archer, .s3 =>
      let prev := t.health
      let c1 := c0.addToBattleLog (c0.name ++ (" uses Double Shot on ") ++ t.name ++ ("!"))
      let t1 := (t.takeDamage c0.currentAttack true ("")).takeDamage c0.currentAttack true ("")
      (true, c1.addToBattleLog (hpSnapshot t1 prev), t1)
    | .mage, .s1 =>
      let dmg := c0.currentAttack + 20
      let prev := t.health
      let c1 := c0.addToBattleLog (c0.name ++ (" casts Fireball on ") ++ t.name
        ++ (" for ") ++ toString dmg ++ (" damage!"))
      let t1 := t.takeDamage dmg true ("")
      (true, c1.addToBattleLog (hpSnapshot t1 prev), t1)
    | .mage, .s2 =>
      let c1 := c0.addToBattleLog (c0.name ++ (" casts Ice Nova on ") ++ t.name ++ ("!"))
      let t1 := t.addStatus StatusEffect.STUN 1 c0.name
      (true, c1.addToBattleLog (t1.name ++ (" is stunned for 1 turn!")), t1)
    | .mage, .s3 =>
      let dmg := c0.currentAttack + 5
      let prevT := t.health
      let prevC := c0.health
      let c1 := c0.addToBattleLog (c0.name ++ (" drains life from ") ++ t.name
        ++ (" for ") ++ toString dmg ++ (" damage!"))
      let t1 := t.takeDamage dmg true ("")
      let c2 := c1.heal (Int.tdiv dmg 2)
      let c3 := c2.addToBattleLog (hpSnapshot t1 prevT)
      (true, c3.addToBattleLog (c3.name ++ sq ++ ("s HP: ") ++ toString prevC
        ++ (" -> ") ++ toString c3.health ++ ("/") ++ toString c3.maxHealth), t1)
    | .boss, .s1 =>
      let dmg := c0.currentAttack + 20
      let prev := t.health
      let c1 := c0.addToBattleLog (c0.name ++ (" uses ") ++ nm.1 ++ (" on ") ++ t.name
        ++ (" for ") ++ toString dmg ++ (" damage!"))
      let t1 := t.takeDamage dmg true ("")
      (true, c1.addToBattleLog (hpSnapshot t1 prev), t1)
    | .boss, .s2 =>
      let dmg := c0.currentAttack + 15
      let prev := t.health
      let c1 := c0.addToBattleLog (c0.name ++ (" uses ") ++ nm.2.1 ++ (" on ") ++ t.name
        ++ (" for ") ++ toString dmg ++ (" damage!"))
      let t1 := (t.takeDamage dmg true ("")).addStatus StatusEffect.POISON 3 c0.name
      let c2 := c1.addToBattleLog (hpSnapshot t1 prev)
      (true, c2.addToBattleLog (t1.name ++ (" is poisoned for 3 turns!")), t1)
    | .boss, .s3 =>
      let dmg := c0.currentAttack + 10
      let prevT := t.health
      let prevC := c0.health
      let c1 := c0.addToBattleLog (c0.name ++ (" uses ") ++ nm.2.2 ++ (" on ") ++ t.name
        ++ (" for ") ++ toString dmg ++ (" damage!"))
      let t1 := (t.takeDamage dmg true ("")).addStatus StatusEffect.STUN 1 c0.name
      let c2 := c1.heal 20
      let c3 := c2.addToBattleLog (hpSnapshot t1 prevT)
      let c4 := c3.addToBattleLog (t1.name ++ (" is stunned for 1 turn!"))
      (true, c4.addToBattleLog (c4.name ++ sq ++ ("s HP: ") ++ toString prevC
        ++ (" -> ") ++ toString c4.health ++ ("/") ++ toString c4.maxHealth), t1)

/-- `Warrior(n)`, `Archer(n)`, `Mage(n)` constructors. -/
def mkWarrior (n : String) : Unit := mkUnit n 120 50 20 2

def mkArcher (n : String) : Unit := mkUnit n 80 35 30 1

def mkMage (n : String) : Unit := mkUnit n 70 80 25 0

/-- `BossUnit(n, sk1, sk2, sk3, atk, hp, def)`: mana is fixed at 60. -/
def mkBoss (n : String) (atk hp defVal : Int) : Unit :=
  { name := n, maxHealth := hp, health := hp, maxMana := 60, mana := 60,
    baseAttack := atk, currentAttack := atk, defense := defVal,
    statusEffects := [], potions := [], battleLog := [] }

def Unit.clearBattleLog (u : Unit) : Unit := { u with battleLog := [] }

/-- The action menu offered to the player each turn (`1. Attack 2. Use
Skills 3. Inventory 4. Pass`); for Inventory, `some k` is a valid potion
pick (0-based) and `none` is cancel or an empty inventory. -/
inductive PlayerAction where
  | attack
  | skills (i : SkillIdx)
  | inventory (choice : Option Nat)
  | pass
  deriving DecidableEq, Repr

/-- Boss action drawn as `rand() % 4`: 0/1/2 pick a skill, 3 a basic
attack. -/
inductive BossAction where
  | skill1
  | skill2
  | skill3
  | attack
  deriving DecidableEq, Repr

def bossActionOf : SkillIdx → BossAction
  | .s1 => .skill1
  | .s2 => .skill2
  | .s3 => .skill3

/-- `showSkillsMenu(player, target)`: try the chosen skill; on failure fall
back to a basic attack. -/
def showSkillsMenu (cls : UnitClass) (nm : String × String × String) (i : SkillIdx)
    (p t : Unit) : Unit × Unit :=
  let r := useSkill cls nm i p t
  if r.1 then (r.2.1, r.2.2) else r.2.1.attack r.2.2

/-- `showInventory(usedPotion)`: returns the updated player and whether a
potion was actually consumed. -/
def showInventory (p : Unit) (choice : Option Nat) : Unit × Bool :=
  match choice with
  | none => (p, false)
  | some k =>
    if k < p.potions.length then
      let r := p.usePotion (k : Int)
      (r.2, r.1)
    else (p, false)

/-- The player's turn block in `gameLoop` (stun check, then the action
switch).  Returns (player, boss, usedPotion). -/
def playerTurn (cls : UnitClass) (nm : String × String × String)
    (p b : Unit) (act : PlayerAction) : Unit × Unit × Bool :=
  if p.hasStatus StatusEffect.STUN then
    (((p.addToBattleLog (("\x1B[1;35mYou are stunned and skip your turn!\x1B[0m"))).clearStatus
        StatusEffect.STUN), b, false)
  else
    let p0 := p.addToBattleLog (("\n=== YOUR TURN ==="))
    match act with
    | .attack =>
      let r := p0.attack b
      (r.1, r.2, false)
    | .skills i =>
      let r := showSkillsMenu cls nm i p0 b
      (r.1, r.2, false)
    | .inventory choice =>
      let r := showInventory p0 choice
      (r.1, b, r.2)
    | .pass =>
      (p0.addToBattleLog (("You pass your turn.")), b, false)

/-- The boss's action dispatch in `gameLoop`: the chosen-action line goes to
the player's log, then the boss attacks or casts — with the skill's
return value ignored. -/
def bossTurnAct (nm : String × String × String) (b p : Unit) (act : BossAction) :
    Unit × Unit :=
  match act with
  | .attack =>
    let p0 := p.addToBattleLog (b.name ++ (" chooses to attack!"))
    let r := b.attack p0
    (r.1, r.2)
  | .skill1 =>
    let p0 := p.addToBattleLog (b.name ++ (" uses ") ++ nm.1 ++ ("!"))
    let r := useSkill UnitClass.boss nm SkillIdx.s1 b p0
    (r.2.1, r.2.2)
  | .skill2 =>
    let p0 := p.addToBattleLog (b.name ++ (" uses ") ++ nm.2.1 ++ ("!"))
    let r := useSkill UnitClass.boss nm SkillIdx.s2 b p0
    (r.2.1, r.2.2)
  | .skill3 =>
    let p0 := p.addToBattleLog (b.name ++ (" uses ") ++ nm.2.2 ++ ("!"))
    let r := useSkill UnitClass.boss nm SkillIdx.s3 b p0
    (r.2.1, r.2.2)

/-- The boss's turn block (stun check, then act).  Returns (boss, player,
acted). -/
def bossTurn (nm : String × String × String) (b p : Unit) (act : BossAction) :
    Unit × Unit × Bool :=
  if b.hasStatus StatusEffect.STUN then
    (b.clearStatus StatusEffect.STUN,
     p.addToBattleLog (("\x1B[1;35m") ++ b.name ++ (" is stunned and skips turn!\x1B[0m")),
     false)
  else
    let r := bossTurnAct nm b p act
    (r.1, r.2, true)

/-- Observable outcome of one iteration of the combat `while` loop. -/
structure RoundOut where
  p : Unit
  b : Unit
  bossActed : Bool
  bossTurnReached : Bool
  playerFirst : Bool
  deriving DecidableEq, Repr

/-- One iteration of the combat loop of `gameLoop`, for a fixed turn order.
In the player-first branch, a successful potion use runs the player's
status tick and then `continue`s — the boss's turn block of that
iteration is skipped.  In the boss-first branch the boss has already
acted before the player's action resolves. -/
def playRound (playerFirst : Bool) (cls : UnitClass) (nm : String × String × String)
    (p b : Unit) (pact : PlayerAction) (bact : BossAction) : RoundOut :=
  let p := p.clearBattleLog
  let b := b.clearBattleLog
  if playerFirst then
    let r := playerTurn cls nm p b pact
    let p1 := r.1
    let b1 := r.2.1
    if r.2.2 then
      { p := p1.processStatusEffects, b := b1, bossActed := false,
        bossTurnReached := false, playerFirst := true }
    else
      let p2 := p1.processStatusEffects
      if b1.isAlive then
        let p3 := p2.addToBattleLog (("\n=== ") ++ b1.name ++ sq ++ (("s TURN ===")))
        let r2 := bossTurn nm b1 p3 bact
        { p := r2.2.1, b := r2.1.processStatusEffects, bossActed := r2.2.2,
          bossTurnReached := true, playerFirst := true }
      else
        { p := p2, b := b1, bossActed := false, bossTurnReached := false,
          playerFirst := true }
  else
    let p0 := p.addToBattleLog (("\n=== ") ++ b.name ++ sq ++ (("s TURN ===")))
    let r := bossTurn nm b p0 bact
    let b1 := r.1.processStatusEffects
    let p1 := r.2.1.clearBattleLog
    let b2 := b1.clearBattleLog
    if p1.isAlive then
      let r2 := playerTurn cls nm p1 b2 pact
      { p := r2.1.processStatusEffects, b := r2.2.1, bossActed := r.2.2,
        bossTurnReached := true, playerFirst := false }
    else
      { p := p1, b := b2, bossActed := r.2.2, bossTurnReached := true,
        playerFirst := false }

/-- The combat `while` loop: one scripted (player action, boss action) pair
per round, stopping as soon as a side is dead. -/
def runBattle (playerFirst : Bool) (cls : UnitClass) (nm : String × String × String) :
    Unit → Unit → List (PlayerAction × BossAction) → Unit × Unit × List RoundOut
  | p, b, [] => (p, b, [])
  | p, b, (pa, ba) :: rest =>
    if p.isAlive && b.isAlive then
      let r := playRound playerFirst cls nm p b pa ba
      let rec' := runBattle playerFirst cls nm r.p r.b rest
      (rec'.1, rec'.2.1, r :: rec'.2.2)
    else (p, b, [])

/-- `coinFlip()`: the player picks heads (1) or tails (2) and wins when the
fair flip matches. -/
def coinFlipResult (choice : Int) (coinIsHeads : Bool) : Bool :=
  (choice == 1 && coinIsHeads) || (choice == 2 && !coinIsHeads)

/-- Per-stage inputs: the player's coin call, the random flip, and the
scripted round actions of that stage's battle. -/
structure StageInput where
  choice : Int
  coin : Bool
  script : List (PlayerAction × BossAction)

/-- The five boss name/skill tables of `gameLoop`. -/
def bossNameTable : List String :=
  [("Goblin King"), ("Shadow Knight"), ("Crimson Wraith"), ("Lich Queen"), ("Doom Reaper")]

def bossSkillTable1 : List String :=
  [("Goblin Smash"), ("Shadow Blade"), ("Crimson Slash"), ("Necroflame"), ("Void Strike")]

def bossSkillTable2 : List String :=
  [("Poison Cloud"), ("Dark Mist"), ("Blood Curse"), ("Soul Drain"), ("Void Corruption")]

def bossSkillTable3 : List String :=
  [("Stunning Roar"), ("Shadow Bind"), ("Crimson Howl"), ("Necrotic Heal"), ("Void Stasis")]

/-- Stage-`stage` boss: `atk = 10 + 5*stage`, `hp = 70 + 20*stage`,
`def = stage − 1`. -/
def stageBoss (stage : Nat) : Unit :=
  mkBoss (bossNameTable.getD (stage - 1) (("")))
    (10 + 5 * (stage : Int)) (70 + 20 * (stage : Int)) ((stage : Int) - 1)

def stageNames (stage : Nat) : String × String × String :=
  (bossSkillTable1.getD (stage - 1) ((""))
  , bossSkillTable2.getD (stage - 1) ((""))
  , bossSkillTable3.getD (stage - 1) (("")))

/-- The campaign loop of `gameLoop`: each stage creates its boss, performs
a fresh coin flip, and runs that battle; the campaign stops as soon as
the player dies.  Each list entry records the stage's own coin-flip
outcome paired with its battle's round trace. -/
def runCampaign (cls : UnitClass) : Unit → Nat → List StageInput → List (Bool × List RoundOut)
  | _, _, [] => []
  | p, stage, si :: rest =>
    let first := coinFlipResult si.choice si.coin
    let r := runBattle first cls (stageNames stage) p (stageBoss stage) si.script
    if r.1.isAlive then (first, r.2.2) :: runCampaign cls r.1 (stage + 1) rest
    else [(first, r.2.2)]

/-- A one-stage, one-round campaign input used as a witness. -/
def oneStage : List StageInput :=
  [⟨1, true, [(PlayerAction.pass, BossAction.attack)]⟩]

/-- A placeholder round, only used as a `getD` default. -/
def emptyRound : RoundOut :=
  ⟨mkUnit (("")) 0 0 0 0, mkUnit (("")) 0 0 0 0, false, false, false⟩

/-- `health`/`mana` invariant of §3 of the spec. -/
def VitalsInv (u : Unit) : Prop :=
  0 ≤ u.health ∧ u.health ≤ u.maxHealth ∧ 0 ≤ u.mana ∧ u.mana ≤ u.maxMana

/-- The six equipment items (`generateRandomItems` pool). -/
inductive ItemKind where
  | fireSword
  | iceShield
  | vampireRing
  | poisonDagger
  | dragonScale
  | lightningOrb
  deriving DecidableEq, Repr

/-- Each item's `applyEffect(unit)` override, applied once at acquisition. -/
def applyItemEffect : ItemKind → Unit → Unit
  | .fireSword, u => u.increaseAttack 15
  | .iceShield, u => (u.increaseMaxHealth 20).increaseDefense 10
  | .vampireRing, u => u.increaseAttack 5
  | .poisonDagger, u => u.increaseAttack 8
  | .dragonScale, u => ((u.increaseAttack 10).increaseMaxHealth 30).increaseDefense 5
  | .lightningOrb, u => u.increaseAttack 12

/-- Every engine operation that mutates a single unit, as recorded in the
source: the damage pipeline, heal/mana restore, potion use, the four
permanent upgrades, equipment application, status ticking, status
application, and the two sides of a skill cast. -/
inductive Mutation where
  | damage (dmg : Int) (showBlock : Bool) (source : String)
  | heal (amount : Int)
  | restoreMana (amount : Int)
  | usePotion (index : Int)
  | increaseMaxHealth (amount : Int)
  | increaseMaxMana (amount : Int)
  | increaseAttack (amount : Int)
  | increaseDefense (amount : Int)
  | equip (k : ItemKind)
  | statusTick
  | setStatus (e : StatusEffect) (d : Int) (src : String)
  | castSkill (cls : UnitClass) (nm : String × String × String) (i : SkillIdx) (target : Unit)
  | receiveSkill (cls : UnitClass) (nm : String × String × String) (i : SkillIdx) (caster : Unit)

def Mutation.apply : Mutation → Unit → Unit
  | .damage d sb src, u => u.takeDamage d sb src
  | .heal a, u => u.heal a
  | .restoreMana a, u => u.restoreMana a
  | .usePotion i, u => (u.usePotion i).2
  | .increaseMaxHealth a, u => u.increaseMaxHealth a
  | .increaseMaxMana a, u => u.increaseMaxMana a
  | .increaseAttack a, u => u.increaseAttack a
  | .increaseDefense a, u => u.increaseDefense a
  | .equip k, u => applyItemEffect k u
  | .statusTick, u => u.processStatusEffects
  | .setStatus e d s, u => u.addStatus e d s
  | .castSkill cls nm i t, u => (useSkill cls nm i u t).2.1
  | .receiveSkill cls nm i c, u => (useSkill cls nm i c u).2.2

/-- Well-formedness of a mutation's inputs: the amounts the game ever
passes are non-negative (potion amounts, upgrade amounts, a caster's
attack stat). -/
def Mutation.wfB : Mutation → Unit → Bool
  | .heal a, _ => decide (0 ≤ a)
  | .restoreMana a, _ => decide (0 ≤ a)
  | .usePotion _, u => u.potions.all (fun p => decide (0 ≤ p.amount))
  | .increaseMaxHealth a, _ => decide (0 ≤ a)
  | .increaseMaxMana a, _ => decide (0 ≤ a)
  | .castSkill _ _ _ _, u => decide (0 ≤ u.currentAttack)
  | _, _ => true

/-- Representation invariant of `std::map<StatusEffect,int>`: entries are
strictly sorted by the enum key. -/
def WFStatus (L : List (StatusEffect × Int)) : Prop :=
  L.Pairwise (fun p q => p.1.key < q.1.key)

/-- Modelled from the spec: §4.2 says the per-tick effects of multiple
simultaneously active status effects are applied in the order in which
the effects were inserted.  This function applies one tick pass over
the given insertion sequence.  (The source instead iterates a
`std::map`, i.e. in enum-key order.) -/
def processInInsertionOrder (inserted : List StatusEffect) (u : Unit) : Unit :=
  inserted.foldl tickEffect u

/-- Health formula of the damage pipeline. -/
theorem takeDamage_health (u : Unit) (dmg : Int) (sb : Bool) (src : String) :
    (u.takeDamage dmg sb src).health = max 0 (u.health - max 1 (dmg - u.defense)) := by
  simp only [Unit.takeDamage, Unit.addToBattleLog]
  split_ifs <;> rfl

theorem takeDamage_maxHealth (u : Unit) (dmg : Int) (sb : Bool) (src : String) :
    (u.takeDamage dmg sb src).maxHealth = u.maxHealth := by
  simp only [Unit.takeDamage, Unit.addToBattleLog]
  split_ifs <;> rfl

theorem takeDamage_mana (u : Unit) (dmg : Int) (sb : Bool) (src : String) :
    (u.takeDamage dmg sb src).mana = u.mana := by
  simp only [Unit.takeDamage, Unit.addToBattleLog]
  split_ifs <;> rfl

theorem takeDamage_maxMana (u : Unit) (dmg : Int) (sb : Bool) (src : String) :
    (u.takeDamage dmg sb src).maxMana = u.maxMana := by
  simp only [Unit.takeDamage, Unit.addToBattleLog]
  split_ifs <;> rfl

/-- C1: for a unit with `0 ≤ health ≤ maxHealth`, `takeDamage d` sets
`health` to `max 0 (health − max 1 (d − defense))`; at least 1 point of
damage always lands regardless of defense, health never becomes
negative, and health stays within `[0, maxHealth]` (with `maxHealth`
unchanged). -/
theorem C1_takeDamage_spec (u : Unit) (d : Int) (sb : Bool) (src : String)
    (h0 : 0 ≤ u.health) (h1 : u.health ≤ u.maxHealth) :
    (u.takeDamage d sb src).health = max 0 (u.health - max 1 (d - u.defense)) ∧
    1 ≤ max 1 (d - u.defense) ∧
    0 ≤ (u.takeDamage d sb src).health ∧
    (u.takeDamage d sb src).health ≤ (u.takeDamage d sb src).maxHealth ∧
    (u.takeDamage d sb src).maxHealth = u.maxHealth := by
  rw [takeDamage_health, takeDamage_maxHealth]
  refine ⟨rfl, ?_, ?_, ?_, rfl⟩ <;> omega

/-- C1 witness: the spec's own scenario — a Warrior-shaped unit
(HP 120, DEF 2) hit for a raw 12 takes 10 and ends at 110. -/
theorem C1_takeDamage_spec_witness :
    0 ≤ (mkUnit ("Hero") 120 50 20 2).health ∧
    (mkUnit ("Hero") 120 50 20 2).health ≤ (mkUnit ("Hero") 120 50 20 2).maxHealth ∧
    ((mkUnit ("Hero") 120 50 20 2).takeDamage 12 true ("")).health =
      max 0 ((mkUnit ("Hero") 120 50 20 2).health - max 1 (12 - (mkUnit ("Hero") 120 50 20 2).defense)) :=
  ⟨by decide, by decide,
    (C1_takeDamage_spec (mkUnit ("Hero") 120 50 20 2) 12 true ("") (by decide) (by decide)).1⟩

/-- Failure case of every skill: insufficient mana only logs and returns
`false`. -/
theorem useSkill_fail (cls : UnitClass) (nm : String × String × String) (i : SkillIdx)
    (c t : Unit) (h : c.mana < skillCost cls i) :
    useSkill cls nm i c t = (false, c.addToBattleLog (insufficientMsg cls nm i c.name), t) := by
  unfold useSkill
  rw [if_pos h]

/-- C2: for every unit and every one of its three skills, if mana is below
the skill's cost the invocation returns `false`, appends exactly the
insufficient-MP line to the caster's battle log, leaves the caster's mana
unchanged and the target untouched; and invoking the same skill again
still fails with mana unchanged (failure is idempotent and atomic). -/
theorem C2_skill_insufficient_mana (cls : UnitClass) (nm : String × String × String)
    (i : SkillIdx) (c t : Unit) (h : c.mana < skillCost cls i) :
    (useSkill cls nm i c t).1 = false ∧
    (useSkill cls nm i c t).2.2 = t ∧
    (useSkill cls nm i c t).2.1.mana = c.mana ∧
    (useSkill cls nm i c t).2.1.health = c.health ∧
    (useSkill cls nm i c t).2.1.battleLog = c.battleLog ++ [insufficientMsg cls nm i c.name] ∧
    (useSkill cls nm i (useSkill cls nm i c t).2.1 t).1 = false ∧
    (useSkill cls nm i (useSkill cls nm i c t).2.1 t).2.1.mana = c.mana ∧
    (useSkill cls nm i (useSkill cls nm i c t).2.1 t).2.2 = t := by
  have e1 := useSkill_fail cls nm i c t h
  have e2 := useSkill_fail cls nm i (c.addToBattleLog (insufficientMsg cls nm i c.name)) t h
  refine ⟨?_, ?_, ?_, ?_, ?_, ?_, ?_, ?_⟩ <;> simp only [e1, e2] <;> rfl

/-- C2 witness: a Mage with 10 MP cannot pay Life Drain's cost of 25; the
invocation fails. -/
theorem C2_skill_insufficient_mana_witness :
    ({ mkMage ("M") with mana := 10 } : Unit).mana < skillCost UnitClass.mage SkillIdx.s3 ∧
    (useSkill UnitClass.mage (("a"), ("b"), ("c")) SkillIdx.s3
      ({ mkMage ("M") with mana := 10 } : Unit) (mkWarrior ("W"))).1 = false :=
  ⟨by decide,
    (C2_skill_insufficient_mana UnitClass.mage (("a"), ("b"), ("c")) SkillIdx.s3
      ({ mkMage ("M") with mana := 10 } : Unit) (mkWarrior ("W")) (by decide)).1⟩

theorem clearBattleLog_hasStatus (u : Unit) (e : StatusEffect) :
    (u.clearBattleLog).hasStatus e = u.hasStatus e := rfl

theorem addToBattleLog_hasStatus (u : Unit) (m : String) (e : StatusEffect) :
    (u.addToBattleLog m).hasStatus e = u.hasStatus e := rfl

theorem addToBattleLog_potions (u : Unit) (m : String) :
    (u.addToBattleLog m).potions = u.potions := rfl

theorem clearBattleLog_potions (u : Unit) :
    (u.clearBattleLog).potions = u.potions := rfl

/-- A valid potion index is accepted by `usePotion`. -/
theorem usePotion_succeeds (u : Unit) (k : Nat) (hk : k < u.potions.length) :
    (u.usePotion (k : Int)).1 = true := by
  unfold Unit.usePotion
  rw [if_neg (by push_neg; omega)]
  have hg : u.potions.get? ((k : Int)).toNat = some (u.potions.get ⟨k, hk⟩) := by
    rw [Int.toNat_ofNat]
    exact List.get?_eq_get hk
  rw [hg]

/-- `showInventory` reports a consumed potion exactly on a valid pick. -/
theorem showInventory_used (p : Unit) (k : Nat) (hk : k < p.potions.length) :
    (showInventory p (some k)).2 = true := by
  simp only [showInventory]
  rw [if_pos hk]
  exact usePotion_succeeds p k hk

/-- A non-stunned player choosing a valid potion ends the turn with the
used-potion flag set and the boss untouched. -/
theorem playerTurn_potion (cls : UnitClass) (nm : String × String × String)
    (p b : Unit) (k : Nat)
    (hstun : p.hasStatus StatusEffect.STUN = false) (hk : k < p.potions.length) :
    (playerTurn cls nm p b (PlayerAction.inventory (some k))).2.2 = true ∧
    (playerTurn cls nm p b (PlayerAction.inventory (some k))).2.1 = b := by
  have hcond : ¬ (p.hasStatus StatusEffect.STUN = true) := by simp [hstun]
  simp only [playerTurn, if_neg hcond]
  exact ⟨showInventory_used (p.addToBattleLog (("\n=== YOUR TURN ==="))) k hk, trivial⟩

/-- C3 counterexample: the player acts first, successfully drinks a potion,
the boss is alive and not stunned — yet the boss's turn block of that
round never runs (the loop `continue`s), contradicting the claim that
the boss still takes its action in the same round. -/
theorem C3_counterexample :
    (stageBoss 1).isAlive = true ∧
    (stageBoss 1).hasStatus StatusEffect.STUN = false ∧
    (playRound true UnitClass.warrior (stageNames 1)
        ({ mkWarrior ("Hero") with potions := [⟨("Health Potion"), 30, true⟩] } : Unit)
        (stageBoss 1) (PlayerAction.inventory (some 0)) BossAction.attack).p.potions = [] ∧
    (playRound true UnitClass.warrior (stageNames 1)
        ({ mkWarrior ("Hero") with potions := [⟨("Health Potion"), 30, true⟩] } : Unit)
        (stageBoss 1) (PlayerAction.inventory (some 0)) BossAction.attack).bossActed = false ∧
    (playRound true UnitClass.warrior (stageNames 1)
        ({ mkWarrior ("Hero") with potions := [⟨("Health Potion"), 30, true⟩] } : Unit)
        (stageBoss 1) (PlayerAction.inventory (some 0)) BossAction.attack).bossTurnReached = false ∧
    (playRound true UnitClass.warrior (stageNames 1)
        ({ mkWarrior ("Hero") with potions := [⟨("Health Potion"), 30, true⟩] } : Unit)
        (stageBoss 1) (PlayerAction.inventory (some 0)) BossAction.attack).b =
      (stageBoss 1).clearBattleLog := by
  refine ⟨rfl, rfl, ?_, ?_, ?_, ?_⟩ <;> decide

/-- C3 amended: a successful potion use consumes the player's action for
the round, but when the player acts first the round is cut short: the
boss does not act in that round (its state is left untouched apart from
the round-top log clearing); only when the boss acts first — having
already acted earlier in the round — does the boss act in a
potion-using round. -/
theorem C3_potion_round (cls : UnitClass) (nm : String × String × String)
    (p b : Unit) (k : Nat) (bact : BossAction)
    (hp : p.hasStatus StatusEffect.STUN = false)
    (hb : b.hasStatus StatusEffect.STUN = false)
    (hk : k < p.potions.length) :
    (playRound true cls nm p b (PlayerAction.inventory (some k)) bact).bossActed = false ∧
    (playRound true cls nm p b (PlayerAction.inventory (some k)) bact).bossTurnReached = false ∧
    (playRound true cls nm p b (PlayerAction.inventory (some k)) bact).b = b.clearBattleLog ∧
    (playRound false cls nm p b (PlayerAction.inventory (some k)) bact).bossActed = true := by
  have hp' : (p.clearBattleLog).hasStatus StatusEffect.STUN = false := hp
  have hk' : k < (p.clearBattleLog).potions.length := hk
  have h1 := playerTurn_potion cls nm p.clearBattleLog b.clearBattleLog k hp' hk'
  have hbcond : ¬ ((b.clearBattleLog).hasStatus StatusEffect.STUN = true) := by
    simp [clearBattleLog_hasStatus, hb]
  refine ⟨?_, ?_, ?_, ?_⟩
  · simp only [playRound, eq_self_iff_true, if_true, if_pos h1.1]
  · simp only [playRound, eq_self_iff_true, if_true, if_pos h1.1]
  · simp only [playRound, eq_self_iff_true, if_true, if_pos h1.1]
    exact h1.2
  · simp only [playRound, Bool.false_eq_true, if_false, bossTurn, if_neg hbcond]
    split <;> rfl

/-- C3 witness for the amended round property, at the counterexample's
inputs with the boss acting first. -/
theorem C3_potion_round_witness :
    ({ mkWarrior ("Hero") with potions := [⟨("Health Potion"), 30, true⟩] } : Unit).hasStatus
      StatusEffect.STUN = false ∧
    (stageBoss 1).hasStatus StatusEffect.STUN = false ∧
    0 < ({ mkWarrior ("Hero") with potions := [⟨("Health Potion"), 30, true⟩] } : Unit).potions.length ∧
    (playRound false UnitClass.warrior (stageNames 1)
        ({ mkWarrior ("Hero") with potions := [⟨("Health Potion"), 30, true⟩] } : Unit)
        (stageBoss 1) (PlayerAction.inventory (some 0)) BossAction.attack).bossActed = true :=
  ⟨by decide, by decide, by decide,
    (C3_potion_round UnitClass.warrior (stageNames 1)
      ({ mkWarrior ("Hero") with potions := [⟨("Health Potion"), 30, true⟩] } : Unit)
      (stageBoss 1) 0 BossAction.attack (by decide) (by decide) (by decide)).2.2.2⟩

/-- C5 counterexample: a boss with 0 MP picks skill 1; the skill fails and
no basic attack follows — the player's health is unchanged (120), while
a basic attack would have left 107. -/
theorem C5_counterexample :
    ({ stageBoss 1 with mana := 0 } : Unit).mana < skillCost UnitClass.boss SkillIdx.s1 ∧
    (bossTurnAct (stageNames 1) ({ stageBoss 1 with mana := 0 } : Unit)
      (mkWarrior ("Hero")) BossAction.skill1).2.health = 120 ∧
    ((mkWarrior ("Hero")).takeDamage ({ stageBoss 1 with mana := 0 } : Unit).currentAttack
      true ("")).health = 107 ∧
    (120 : Int) ≠ 107 := by
  refine ⟨?_, ?_, ?_, ?_⟩ <;> decide

/-- C5 amended: the insufficient-mana fallback to a basic attack exists
only on the player's side (`showSkillsMenu`); the boss's dispatch in
`gameLoop` ignores the skill's failure, so a boss whose skill fails
deals no damage at all that turn (its target and its own mana are left
unchanged). -/
theorem C5_skill_fallback :
    (∀ (cls : UnitClass) (nm : String × String × String) (i : SkillIdx) (p b : Unit),
      p.mana < skillCost cls i →
        showSkillsMenu cls nm i p b =
          (p.addToBattleLog (insufficientMsg cls nm i p.name)).attack b) ∧
    (∀ (nm : String × String × String) (i : SkillIdx) (b p : Unit),
      b.mana < skillCost UnitClass.boss i →
        (bossTurnAct nm b p (bossActionOf i)).2.health = p.health ∧
        (bossTurnAct nm b p (bossActionOf i)).2.mana = p.mana ∧
        (bossTurnAct nm b p (bossActionOf i)).1.mana = b.mana) := by
  constructor
  · intro cls nm i p b h
    simp only [showSkillsMenu, useSkill_fail cls nm i p b h, Bool.false_eq_true, if_false]
  · intro nm i b p h
    cases i with
    | s1 =>
      simp only [bossActionOf, bossTurnAct,
        useSkill_fail UnitClass.boss nm SkillIdx.s1 b
          (p.addToBattleLog (b.name ++ (" uses ") ++ nm.1 ++ ("!"))) h]
      exact ⟨rfl, rfl, rfl⟩
    | s2 =>
      simp only [bossActionOf, bossTurnAct,
        useSkill_fail UnitClass.boss nm SkillIdx.s2 b
          (p.addToBattleLog (b.name ++ (" uses ") ++ nm.2.1 ++ ("!"))) h]
      exact ⟨rfl, rfl, rfl⟩
    | s3 =>
      simp only [bossActionOf, bossTurnAct,
        useSkill_fail UnitClass.boss nm SkillIdx.s3 b
          (p.addToBattleLog (b.name ++ (" uses ") ++ nm.2.2 ++ ("!"))) h]
      exact ⟨rfl, rfl, rfl⟩

/-- C5 witness: player fallback fires for a drained Mage; the drained boss
of the counterexample leaves the target's health unchanged. -/
theorem C5_skill_fallback_witness :
    ({ mkMage ("M") with mana := 0 } : Unit).mana < skillCost UnitClass.mage SkillIdx.s1 ∧
    showSkillsMenu UnitClass.mage (("a"), ("b"), ("c")) SkillIdx.s1
        ({ mkMage ("M") with mana := 0 } : Unit) (mkWarrior ("W")) =
      (({ mkMage ("M") with mana := 0 } : Unit).addToBattleLog
        (insufficientMsg UnitClass.mage (("a"), ("b"), ("c")) SkillIdx.s1
          ({ mkMage ("M") with mana := 0 } : Unit).name)).attack (mkWarrior ("W")) ∧
    ({ stageBoss 1 with mana := 0 } : Unit).mana < skillCost UnitClass.boss SkillIdx.s2 ∧
    (bossTurnAct (stageNames 1) ({ stageBoss 1 with mana := 0 } : Unit) (mkWarrior ("W"))
      (bossActionOf SkillIdx.s2)).2.health = (mkWarrior ("W")).health :=
  ⟨by decide,
    C5_skill_fallback.1 UnitClass.mage (("a"), ("b"), ("c")) SkillIdx.s1
      ({ mkMage ("M") with mana := 0 } : Unit) (mkWarrior ("W")) (by decide),
    by decide,
    (C5_skill_fallback.2 (stageNames 1) SkillIdx.s2 ({ stageBoss 1 with mana := 0 } : Unit)
      (mkWarrior ("W")) (by decide)).1⟩

/-- The recorded turn order of a round is the `playerFirst` flag the round
was run with. -/
theorem playRound_playerFirst_field (pf : Bool) (cls : UnitClass)
    (nm : String × String × String) (p b : Unit) (pa : PlayerAction) (ba : BossAction) :
    (playRound pf cls nm p b pa ba).playerFirst = pf := by
  cases pf <;>
    simp only [playRound, Bool.false_eq_true, if_false, eq_self_iff_true, if_true] <;>
    (split <;> first | rfl | (split <;> rfl))

/-- Every round of a battle is played with the battle's single turn-order
flag. -/
theorem runBattle_playerFirst (pf : Bool) (cls : UnitClass) (nm : String × String × String) :
    ∀ (script : List (PlayerAction × BossAction)) (p b : Unit) (r : RoundOut),
      r ∈ (runBattle pf cls nm p b script).2.2 → r.playerFirst = pf := by
  intro script
  induction script with
  | nil =>
    intro p b r hr
    simp only [runBattle, List.not_mem_nil] at hr
  | cons hd tl ih =>
    intro p b r hr
    obtain ⟨pa, ba⟩ := hd
    simp only [runBattle] at hr
    split at hr
    · rcases List.mem_cons.mp hr with h1 | h2
      · rw [h1]
        exact playRound_playerFirst_field pf cls nm p b pa ba
      · exact ih _ _ r h2
    · simp at hr

/-- Campaign-level turn-order bookkeeping: every round of every stage
agrees with that stage's own flip, and the per-stage flags are the
per-stage coin-flip results. -/
theorem runCampaign_flags (cls : UnitClass) :
    ∀ (sis : List StageInput) (p : Unit) (stage : Nat),
      (∀ pr ∈ runCampaign cls p stage sis, ∀ r ∈ pr.2, r.playerFirst = pr.1) ∧
      (runCampaign cls p stage sis).map Prod.fst =
        (sis.map (fun si => coinFlipResult si.choice si.coin)).take
          (runCampaign cls p stage sis).length := by
  intro sis
  induction sis with
  | nil =>
    intro p stage
    exact ⟨fun pr hpr => by simp [runCampaign] at hpr, by simp [runCampaign]⟩
  | cons si rest ih =>
    intro p stage
    simp only [runCampaign]
    split
    · constructor
      · intro pr hpr r hr
        rcases List.mem_cons.mp hpr with h1 | h2
        · rw [h1] at hr ⊢
          exact runBattle_playerFirst _ cls (stageNames stage) si.script p (stageBoss stage) r hr
        · exact (ih _ (stage + 1)).1 pr h2 r hr
      · simp only [List.map_cons, List.length_cons, List.take_succ_cons]
        rw [(ih _ (stage + 1)).2]
    · constructor
      · intro pr hpr r hr
        rcases List.mem_cons.mp hpr with h1 | h2
        · rw [h1] at hr ⊢
          exact runBattle_playerFirst _ cls (stageNames stage) si.script p (stageBoss stage) r hr
        · simp at h2
      · simp

/-- C6: turn order is decided exactly once per battle, before its first
round, and every round of that battle is played with that same flag;
each subsequent stage performs a fresh coin flip, so the recorded
per-stage first movers are exactly the stage-by-stage coin-flip
results (up to where the campaign ends). -/
theorem C6_turn_order (cls : UnitClass) (sis : List StageInput) (p : Unit) (stage : Nat)
    (pr : Bool × List RoundOut) (r : RoundOut)
    (h1 : pr ∈ runCampaign cls p stage sis) (h2 : r ∈ pr.2) :
    r.playerFirst = pr.1 ∧
    (runCampaign cls p stage sis).map Prod.fst =
      (sis.map (fun si => coinFlipResult si.choice si.coin)).take
        (runCampaign cls p stage sis).length :=
  ⟨(runCampaign_flags cls sis p stage).1 pr h1 r h2, (runCampaign_flags cls sis p stage).2⟩

/-- C6 witness: a one-stage, one-round campaign; the one recorded round's
order equals the stage's coin-flip result. -/
theorem C6_turn_order_witness :
    ((runCampaign UnitClass.warrior (mkWarrior ("Hero")) 1 oneStage).getD 0 (true, []) ∈
      runCampaign UnitClass.warrior (mkWarrior ("Hero")) 1 oneStage) ∧
    (((runCampaign UnitClass.warrior (mkWarrior ("Hero")) 1 oneStage).getD 0 (true, [])).2.getD 0
        emptyRound ∈
      ((runCampaign UnitClass.warrior (mkWarrior ("Hero")) 1 oneStage).getD 0 (true, [])).2) ∧
    (((runCampaign UnitClass.warrior (mkWarrior ("Hero")) 1 oneStage).getD 0
        (true, [])).2.getD 0 emptyRound).playerFirst =
      ((runCampaign UnitClass.warrior (mkWarrior ("Hero")) 1 oneStage).getD 0 (true, [])).1 :=
  ⟨by decide, by decide,
    (C6_turn_order UnitClass.warrior oneStage (mkWarrior ("Hero")) 1
      ((runCampaign UnitClass.warrior (mkWarrior ("Hero")) 1 oneStage).getD 0 (true, []))
      (((runCampaign UnitClass.warrior (mkWarrior ("Hero")) 1 oneStage).getD 0
        (true, [])).2.getD 0 emptyRound)
      (by decide) (by decide)).1⟩

/-- C4 counterexample: Archer's Double Shot on a 10-HP, 0-DEF target: the
first arrow kills (health 0), yet the second arrow is still driven
through the damage pipeline against the already-dead target, recording
a fresh damage entry in its battle log. -/
theorem C4_counterexample :
    ((({ mkWarrior ("T") with health := 10, defense := 0 } : Unit).takeDamage 30 true ("")).isAlive
      = false) ∧
    ((useSkill UnitClass.archer (("a"), ("b"), ("c")) SkillIdx.s3 (mkArcher ("A"))
        ({ mkWarrior ("T") with health := 10, defense := 0 } : Unit)).2.2 =
      (({ mkWarrior ("T") with health := 10, defense := 0 } : Unit).takeDamage 30 true
        ("")).takeDamage 30 true ("")) ∧
    ((useSkill UnitClass.archer (("a"), ("b"), ("c")) SkillIdx.s3 (mkArcher ("A"))
        ({ mkWarrior ("T") with health := 10, defense := 0 } : Unit)).2.2.battleLog.length =
      (({ mkWarrior ("T") with health := 10, defense := 0 } : Unit).takeDamage 30 true
        ("")).battleLog.length + 1) := by
  refine ⟨?_, ?_, ?_⟩ <;> decide

/-- C4 amended: death stops further damage only through the loop's
explicit liveness checks; within a multi-hit skill there is no such
check — Double Shot always applies both hits to the target, whatever
the first one did — but the damage pipeline keeps a dead unit's health
pinned at 0 (the killing blow is never exceeded in health terms). -/
theorem C4_dead_unit_damage (nm : String × String × String) (c t : Unit)
    (h : skillCost UnitClass.archer SkillIdx.s3 ≤ c.mana) :
    (useSkill UnitClass.archer nm SkillIdx.s3 c t).2.2 =
      (t.takeDamage c.currentAttack true ("")).takeDamage c.currentAttack true ("") ∧
    (∀ (u : Unit) (d : Int) (sb : Bool) (src : String),
      u.health = 0 → (u.takeDamage d sb src).health = 0) := by
  constructor
  · simp only [useSkill, if_neg (not_lt.mpr h)]
  · intro u d sb src h0
    rw [takeDamage_health, h0]
    omega

/-- C4 witness: Double Shot cast with enough mana; both hits are applied
and a dead unit's health stays 0. -/
theorem C4_dead_unit_damage_witness :
    skillCost UnitClass.archer SkillIdx.s3 ≤ (mkArcher ("A")).mana ∧
    ({ mkWarrior ("D") with health := 0 } : Unit).health = 0 ∧
    (useSkill UnitClass.archer (("a"), ("b"), ("c")) SkillIdx.s3 (mkArcher ("A"))
        (mkWarrior ("T"))).2.2 =
      ((mkWarrior ("T")).takeDamage (mkArcher ("A")).currentAttack true
        ("")).takeDamage (mkArcher ("A")).currentAttack true ("") :=
  ⟨by decide, by decide,
    (C4_dead_unit_damage (("a"), ("b"), ("c")) (mkArcher ("A")) (mkWarrior ("T"))
      (by decide)).1⟩

theorem heal_health (u : Unit) (a : Int) :
    (u.heal a).health = min u.maxHealth (u.health + a) := rfl

theorem heal_maxHealth (u : Unit) (a : Int) : (u.heal a).maxHealth = u.maxHealth := rfl

theorem heal_mana (u : Unit) (a : Int) : (u.heal a).mana = u.mana := rfl

theorem heal_maxMana (u : Unit) (a : Int) : (u.heal a).maxMana = u.maxMana := rfl

theorem restoreMana_mana (u : Unit) (a : Int) :
    (u.restoreMana a).mana = min u.maxMana (u.mana + a) := rfl

theorem restoreMana_health (u : Unit) (a : Int) : (u.restoreMana a).health = u.health := rfl

theorem restoreMana_maxHealth (u : Unit) (a : Int) :
    (u.restoreMana a).maxHealth = u.maxHealth := rfl

theorem restoreMana_maxMana (u : Unit) (a : Int) :
    (u.restoreMana a).maxMana = u.maxMana := rfl

/-- A fold whose step preserves a predicate preserves it overall. -/
theorem foldl_preserves {α : Type} (P : Unit → Prop) (f : Unit → α → Unit)
    (hf : ∀ v a, P v → P (f v a)) :
    ∀ (l : List α) (v : Unit), P v → P (l.foldl f v) := by
  intro l
  induction l with
  | nil => intro v hv; exact hv
  | cons a as ih =>
    intro v hv
    exact ih (f v a) (hf v a hv)

/-- A fold whose step leaves an integer field unchanged leaves it
unchanged overall. -/
theorem foldl_field {α β : Type} (f : Unit → α → Unit) (g : Unit → β)
    (hf : ∀ v a, g (f v a) = g v) :
    ∀ (l : List α) (v : Unit), g (l.foldl f v) = g v := by
  intro l
  induction l with
  | nil => intro v; rfl
  | cons a as ih =>
    intro v
    rw [List.foldl_cons, ih (f v a), hf v a]

/-- One tick step preserves the vitals invariant. -/
theorem tickAndLog_vitals (v : Unit) (p : StatusEffect × Int)
    (hv : VitalsInv v) : VitalsInv (tickAndLog v p) := by
  have hcore : VitalsInv (tickEffect v p.1) := by
    rcases hv with ⟨h1, h2, h3, h4⟩
    cases p.1 with
    | POISON =>
      refine ⟨?_, ?_, ?_, ?_⟩ <;>
        simp only [tickEffect, takeDamage_health, takeDamage_maxHealth, takeDamage_mana,
          takeDamage_maxMana] <;> omega
    | BLEED =>
      refine ⟨?_, ?_, ?_, ?_⟩ <;>
        simp only [tickEffect, takeDamage_health, takeDamage_maxHealth, takeDamage_mana,
          takeDamage_maxMana] <;> omega
    | STRENGTH_UP => exact ⟨h1, h2, h3, h4⟩
    | WEAKNESS => exact ⟨h1, h2, h3, h4⟩
    | STUN => exact ⟨h1, h2, h3, h4⟩
    | NONE => exact ⟨h1, h2, h3, h4⟩
  unfold tickAndLog
  split
  · exact hcore
  · exact hcore

/-- Status ticking preserves the vitals invariant: the per-tick damage goes
through the clamped pipeline, and the removal pass only touches
`currentAttack` and the status table. -/
theorem processStatusEffects_vitals (u : Unit) (h : VitalsInv u) :
    VitalsInv u.processStatusEffects := by
  have h1 : VitalsInv (u.statusEffects.foldl tickAndLog u) :=
    foldl_preserves VitalsInv tickAndLog tickAndLog_vitals u.statusEffects u h
  unfold Unit.processStatusEffects
  refine foldl_preserves VitalsInv _ ?_ _ _ h1
  intro v e hv
  dsimp only
  split
  · exact hv
  · exact hv

theorem addToBattleLog_health (u : Unit) (m : String) : (u.addToBattleLog m).health = u.health := rfl

theorem addToBattleLog_maxHealth (u : Unit) (m : String) :
    (u.addToBattleLog m).maxHealth = u.maxHealth := rfl

theorem addToBattleLog_mana (u : Unit) (m : String) : (u.addToBattleLog m).mana = u.mana := rfl

theorem addToBattleLog_maxMana (u : Unit) (m : String) :
    (u.addToBattleLog m).maxMana = u.maxMana := rfl

theorem addStatus_health (u : Unit) (e : StatusEffect) (d : Int) (src : String) :
    (u.addStatus e d src).health = u.health := rfl

theorem addStatus_maxHealth (u : Unit) (e : StatusEffect) (d : Int) (src : String) :
    (u.addStatus e d src).maxHealth = u.maxHealth := rfl

theorem addStatus_mana (u : Unit) (e : StatusEffect) (d : Int) (src : String) :
    (u.addStatus e d src).mana = u.mana := rfl

theorem addStatus_maxMana (u : Unit) (e : StatusEffect) (d : Int) (src : String) :
    (u.addStatus e d src).maxMana = u.maxMana := rfl

/-- C7: every engine operation that mutates a unit — takeDamage, heal,
restoreMana, potion use, the permanent upgrades, equipment application,
status application, status ticks, and both sides of every skill cast
(including its mana debit) — preserves `0 ≤ health ≤ maxHealth` and
`0 ≤ mana ≤ maxMana`, given the non-negative amounts the game supplies. -/
theorem C7_mutations_preserve_vitals (m : Mutation) (u : Unit)
    (hinv : VitalsInv u) (hwf : m.wfB u = true) : VitalsInv (m.apply u) := by
  obtain ⟨h1, h2, h3, h4⟩ := hinv
  cases m with
  | damage d sb src =>
    refine ⟨?_, ?_, ?_, ?_⟩ <;>
      simp only [Mutation.apply, takeDamage_health, takeDamage_maxHealth, takeDamage_mana,
        takeDamage_maxMana] <;> omega
  | heal a =>
    have ha : (0:Int) ≤ a := by simpa [Mutation.wfB] using hwf
    refine ⟨?_, ?_, ?_, ?_⟩ <;>
      simp only [Mutation.apply, heal_health, heal_maxHealth, heal_mana, heal_maxMana] <;> omega
  | restoreMana a =>
    have ha : (0:Int) ≤ a := by simpa [Mutation.wfB] using hwf
    refine ⟨?_, ?_, ?_, ?_⟩ <;>
      simp only [Mutation.apply, restoreMana_mana, restoreMana_maxMana, restoreMana_health,
        restoreMana_maxHealth] <;> omega
  | usePotion i =>
    simp only [Mutation.apply, Unit.usePotion]
    split
    · exact ⟨h1, h2, h3, h4⟩
    · split
      · exact ⟨h1, h2, h3, h4⟩
      · rename_i potion hp
        have hmem : potion ∈ u.potions := List.get?_mem hp
        have hamt : (0:Int) ≤ potion.amount := by
          simp only [Mutation.wfB, List.all_eq_true, decide_eq_true_eq] at hwf
          exact hwf potion hmem
        dsimp only
        split
        · refine ⟨?_, ?_, ?_, ?_⟩ <;>
            simp only [addToBattleLog_health, addToBattleLog_maxHealth, addToBattleLog_mana,
              addToBattleLog_maxMana, heal_health, heal_maxHealth, heal_mana, heal_maxMana] <;>
            omega
        · refine ⟨?_, ?_, ?_, ?_⟩ <;>
            simp only [addToBattleLog_health, addToBattleLog_maxHealth, addToBattleLog_mana,
              addToBattleLog_maxMana, restoreMana_mana, restoreMana_maxMana, restoreMana_health,
              restoreMana_maxHealth] <;>
            omega
  | increaseMaxHealth a =>
    have ha : (0:Int) ≤ a := by simpa [Mutation.wfB] using hwf
    refine ⟨?_, ?_, ?_, ?_⟩ <;>
      simp only [Mutation.apply] <;> dsimp only [Unit.increaseMaxHealth] <;> omega
  | increaseMaxMana a =>
    have ha : (0:Int) ≤ a := by simpa [Mutation.wfB] using hwf
    refine ⟨?_, ?_, ?_, ?_⟩ <;>
      simp only [Mutation.apply] <;> dsimp only [Unit.increaseMaxMana] <;> omega
  | increaseAttack a => exact ⟨h1, h2, h3, h4⟩
  | increaseDefense a => exact ⟨h1, h2, h3, h4⟩
  | equip k =>
    cases k with
    | fireSword => exact ⟨h1, h2, h3, h4⟩
    | iceShield =>
      refine ⟨?_, ?_, ?_, ?_⟩ <;>
        simp only [Mutation.apply] <;>
        dsimp only [applyItemEffect, Unit.increaseMaxHealth, Unit.increaseDefense] <;> omega
    | vampireRing => exact ⟨h1, h2, h3, h4⟩
    | poisonDagger => exact ⟨h1, h2, h3, h4⟩
    | dragonScale =>
      refine ⟨?_, ?_, ?_, ?_⟩ <;>
        simp only [Mutation.apply] <;>
        dsimp only [applyItemEffect, Unit.increaseAttack, Unit.increaseMaxHealth,
          Unit.increaseDefense] <;> omega
    | lightningOrb => exact ⟨h1, h2, h3, h4⟩
  | statusTick => exact processStatusEffects_vitals u ⟨h1, h2, h3, h4⟩
  | setStatus e d src => exact ⟨h1, h2, h3, h4⟩
  | castSkill cls nm i t =>
    have hatk : (0:Int) ≤ u.currentAttack := by simpa [Mutation.wfB] using hwf
    have ht : (0:Int) ≤ Int.tdiv (u.currentAttack + 5) 2 :=
      Int.tdiv_nonneg (by omega) (by omega)
    cases cls <;> cases i <;>
      (simp only [Mutation.apply, useSkill]
       split
       · exact ⟨h1, h2, h3, h4⟩
       · rename_i hm
         simp only [skillCost] at hm
         refine ⟨?_, ?_, ?_, ?_⟩ <;>
           dsimp only [Unit.addToBattleLog, Unit.addStatus, Unit.heal, skillCost] <;> omega)
  | receiveSkill cls nm i c =>
    cases cls <;> cases i <;>
      (simp only [Mutation.apply, useSkill]
       split
       · exact ⟨h1, h2, h3, h4⟩
       · refine ⟨?_, ?_, ?_, ?_⟩ <;>
           simp only [addStatus_health, addStatus_maxHealth, addStatus_mana, addStatus_maxMana,
             takeDamage_health, takeDamage_maxHealth, takeDamage_mana, takeDamage_maxMana] <;>
           omega)

/-- C7 witness: a status tick on a poisoned Warrior keeps the vitals in
range. -/
theorem C7_mutations_preserve_vitals_witness :
    VitalsInv ((mkWarrior ("Hero")).addStatus StatusEffect.POISON 3 ("Boss")) ∧
    Mutation.wfB Mutation.statusTick ((mkWarrior ("Hero")).addStatus StatusEffect.POISON 3 ("Boss"))
      = true ∧
    VitalsInv (Mutation.apply Mutation.statusTick
      ((mkWarrior ("Hero")).addStatus StatusEffect.POISON 3 ("Boss"))) :=
  ⟨by refine ⟨?_, ?_, ?_, ?_⟩ <;> decide, by decide,
    C7_mutations_preserve_vitals Mutation.statusTick
      ((mkWarrior ("Hero")).addStatus StatusEffect.POISON 3 ("Boss"))
      (by refine ⟨?_, ?_, ?_, ?_⟩ <;> decide) (by decide)⟩

theorem key_injective : ∀ (a b : StatusEffect), a.key = b.key → a = b := by
  intro a b h
  cases a <;> cases b <;> simp_all [StatusEffect.key]

theorem mem_insertStatus_weak {e : StatusEffect} {d : Int} :
    ∀ {L : List (StatusEffect × Int)} {x}, x ∈ insertStatus e d L → x = (e, d) ∨ x ∈ L := by
  intro L
  induction L with
  | nil =>
    intro x hx
    simp only [insertStatus, List.mem_singleton] at hx
    exact Or.inl hx
  | cons p rest ih =>
    intro x hx
    simp only [insertStatus] at hx
    split at hx
    · rcases List.mem_cons.mp hx with h | h
      · exact Or.inl h
      · exact Or.inr h
    · split at hx
      · rcases List.mem_cons.mp hx with h | h
        · exact Or.inl h
        · exact Or.inr (List.mem_cons_of_mem p h)
      · rcases List.mem_cons.mp hx with h | h
        · exact Or.inr (h ▸ List.mem_cons_self p rest)
        · rcases ih h with h1 | h1
          · exact Or.inl h1
          · exact Or.inr (List.mem_cons_of_mem p h1)

theorem self_mem_insertStatus (e : StatusEffect) (d : Int) :
    ∀ L : List (StatusEffect × Int), (e, d) ∈ insertStatus e d L := by
  intro L
  induction L with
  | nil => simp [insertStatus]
  | cons p rest ih =>
    simp only [insertStatus]
    split
    · exact List.mem_cons_self _ _
    · split
      · exact List.mem_cons_self _ _
      · exact List.mem_cons_of_mem p ih

theorem mem_insertStatus_of_ne {e : StatusEffect} {d : Int} {x : StatusEffect × Int}
    (hne : x.1 ≠ e) : ∀ {L : List (StatusEffect × Int)}, x ∈ L → x ∈ insertStatus e d L := by
  intro L
  induction L with
  | nil => intro hx; simp at hx
  | cons p rest ih =>
    intro hx
    simp only [insertStatus]
    split
    · exact List.mem_cons_of_mem _ hx
    · split
      · rename_i hkey
        rcases List.mem_cons.mp hx with h | h
        · exact absurd (by rw [h]; exact (key_injective e p.1 hkey).symm) hne
        · exact List.mem_cons_of_mem _ h
      · rcases List.mem_cons.mp hx with h | h
        · exact h ▸ List.mem_cons_self p _
        · exact List.mem_cons_of_mem p (ih h)

theorem mem_insertStatus_strong {e : StatusEffect} {d : Int} :
    ∀ {L : List (StatusEffect × Int)} {x}, WFStatus L → x ∈ insertStatus e d L →
      x = (e, d) ∨ (x ∈ L ∧ x.1 ≠ e) := by
  intro L
  induction L with
  | nil =>
    intro x _ hx
    simp only [insertStatus, List.mem_singleton] at hx
    exact Or.inl hx
  | cons p rest ih =>
    intro x hwf hx
    rw [WFStatus, List.pairwise_cons] at hwf
    obtain ⟨hp, hrest⟩ := hwf
    simp only [insertStatus] at hx
    split at hx
    · rename_i hlt
      rcases List.mem_cons.mp hx with h | h
      · exact Or.inl h
      · refine Or.inr ⟨h, ?_⟩
        intro hxe
        have hkx : e.key < x.1.key := by
          rcases List.mem_cons.mp h with h1 | h1
          · rw [h1]; exact hlt
          · have := hp x h1
            omega
        rw [hxe] at hkx
        omega
    · split at hx
      · rename_i hge hkey
        rcases List.mem_cons.mp hx with h | h
        · exact Or.inl h
        · refine Or.inr ⟨List.mem_cons_of_mem p h, ?_⟩
          intro hxe
          have := hp x h
          rw [hxe, hkey] at this
          omega
      · rename_i hge hne
        have hgt : p.1.key < e.key := by omega
        rcases List.mem_cons.mp hx with h | h
        · refine Or.inr ⟨h ▸ List.mem_cons_self p rest, ?_⟩
          intro hxe
          rw [h] at hxe
          rw [hxe] at hgt
          omega
        · rcases ih hrest h with h1 | h1
          · exact Or.inl h1
          · exact Or.inr ⟨List.mem_cons_of_mem p h1.1, h1.2⟩

theorem insertStatus_wf (e : StatusEffect) (d : Int) :
    ∀ L : List (StatusEffect × Int), WFStatus L → WFStatus (insertStatus e d L) := by
  intro L
  induction L with
  | nil => intro _; simp [insertStatus, WFStatus]
  | cons p rest ih =>
    intro hwf
    rw [WFStatus, List.pairwise_cons] at hwf
    obtain ⟨hp, hrest⟩ := hwf
    simp only [insertStatus]
    split
    · rename_i hlt
      rw [WFStatus, List.pairwise_cons]
      refine ⟨?_, ?_⟩
      · intro q hq
        dsimp only
        rcases List.mem_cons.mp hq with h | h
        · rw [h]; exact hlt
        · have := hp q h
          omega
      · rw [List.pairwise_cons]
        exact ⟨hp, hrest⟩
    · split
      · rename_i hge hkey
        rw [WFStatus, List.pairwise_cons]
        refine ⟨?_, hrest⟩
        intro q hq
        dsimp only
        have := hp q hq
        omega
      · rename_i hge hne
        have hgt : p.1.key < e.key := by omega
        rw [WFStatus, List.pairwise_cons]
        refine ⟨?_, ih hrest⟩
        intro q hq
        rcases mem_insertStatus_weak hq with h | h
        · rw [h]
          dsimp only
          omega
        · exact hp q h

/-- Durations are unique per key on a well-formed table. -/
theorem wf_unique : ∀ {L : List (StatusEffect × Int)}, WFStatus L →
    ∀ {e : StatusEffect} {d1 d2 : Int}, (e, d1) ∈ L → (e, d2) ∈ L → d1 = d2 := by
  intro L
  induction L with
  | nil => intro _ e d1 d2 h; simp at h
  | cons p rest ih =>
    intro hwf e d1 d2 h1 h2
    rw [WFStatus, List.pairwise_cons] at hwf
    obtain ⟨hp, hrest⟩ := hwf
    rcases List.mem_cons.mp h1 with ha | ha <;> rcases List.mem_cons.mp h2 with hb | hb
    · exact congrArg Prod.snd (ha.trans hb.symm)
    · have h3 := hp _ hb
      rw [← ha] at h3
      dsimp at h3
      omega
    · have h3 := hp _ ha
      rw [← hb] at h3
      dsimp at h3
      omega
    · exact ih hrest ha hb

theorem eraseAll_sublist : ∀ (rem : List StatusEffect) (l : List (StatusEffect × Int)),
    List.Sublist (eraseAll rem l) l := by
  intro rem
  induction rem with
  | nil => intro l; exact List.Sublist.refl l
  | cons e rest ih =>
    intro l
    exact List.Sublist.trans (ih (l.filter (fun q => !(q.1 == e)))) (List.filter_sublist l)

theorem mem_eraseAll_of_not {x : StatusEffect × Int} :
    ∀ (rem : List StatusEffect) (l : List (StatusEffect × Int)),
      x ∈ l → x.1 ∉ rem → x ∈ eraseAll rem l := by
  intro rem
  induction rem with
  | nil => intro l hx _; exact hx
  | cons e rest ih =>
    intro l hx hnot
    refine ih _ ?_ (fun hc => hnot (List.mem_cons_of_mem e hc))
    refine List.mem_filter.mpr ⟨hx, ?_⟩
    simp only [Bool.not_eq_eq_eq_not, Bool.not_true, beq_eq_false_iff_ne, ne_eq]
    intro hc
    exact hnot (hc ▸ List.mem_cons_self e rest)

theorem mem_eraseAll {x : StatusEffect × Int} :
    ∀ (rem : List StatusEffect) (l : List (StatusEffect × Int)),
      x ∈ eraseAll rem l → x ∈ l ∧ x.1 ∉ rem := by
  intro rem
  induction rem with
  | nil =>
    intro l hx
    exact ⟨hx, by simp⟩
  | cons e rest ih =>
    intro l hx
    obtain ⟨hf, hnot⟩ := ih _ hx
    obtain ⟨hl, hne⟩ := List.mem_filter.mp hf
    refine ⟨hl, ?_⟩
    intro hc
    rcases List.mem_cons.mp hc with h | h
    · rw [h] at hne
      simp at hne
    · exact hnot h

/-- Membership in the expiry list. -/
theorem expiredOf_spec {L : List (StatusEffect × Int)} {e : StatusEffect} :
    e ∈ expiredOf L ↔ ∃ d, (e, d) ∈ L ∧ d - 1 ≤ 0 := by
  unfold expiredOf decEffects
  constructor
  · intro h
    obtain ⟨y, hy, hye⟩ := List.mem_map.mp h
    obtain ⟨hydec, hyle⟩ := List.mem_filter.mp hy
    obtain ⟨q, hq, hqy⟩ := List.mem_map.mp hydec
    refine ⟨q.2, ?_, ?_⟩
    · have : q = (e, q.2) := by
        rw [← hye, ← hqy]
      rw [← this]
      exact hq
    · rw [← hqy] at hyle
      simpa using hyle
  · intro ⟨d, hd, hle⟩
    refine List.mem_map.mpr ⟨(e, d - 1), ?_, rfl⟩
    refine List.mem_filter.mpr ⟨?_, by simpa using hle⟩
    exact List.mem_map.mpr ⟨(e, d), hd, rfl⟩

theorem takeDamage_statusEffects (u : Unit) (dmg : Int) (sb : Bool) (src : String) :
    (u.takeDamage dmg sb src).statusEffects = u.statusEffects := by
  simp only [Unit.takeDamage, Unit.addToBattleLog]
  split_ifs <;> rfl

theorem takeDamage_currentAttack (u : Unit) (dmg : Int) (sb : Bool) (src : String) :
    (u.takeDamage dmg sb src).currentAttack = u.currentAttack := by
  simp only [Unit.takeDamage, Unit.addToBattleLog]
  split_ifs <;> rfl

theorem takeDamage_baseAttack (u : Unit) (dmg : Int) (sb : Bool) (src : String) :
    (u.takeDamage dmg sb src).baseAttack = u.baseAttack := by
  simp only [Unit.takeDamage, Unit.addToBattleLog]
  split_ifs <;> rfl

theorem tickEffect_statusEffects (v : Unit) (e : StatusEffect) :
    (tickEffect v e).statusEffects = v.statusEffects := by
  cases e <;> simp only [tickEffect, takeDamage_statusEffects]

theorem tickEffect_baseAttack (v : Unit) (e : StatusEffect) :
    (tickEffect v e).baseAttack = v.baseAttack := by
  cases e <;> simp only [tickEffect, takeDamage_baseAttack]

theorem tickAndLog_statusEffects (v : Unit) (p : StatusEffect × Int) :
    (tickAndLog v p).statusEffects = v.statusEffects := by
  unfold tickAndLog
  split
  · rw [show ∀ w : Unit, ∀ m, (w.addToBattleLog m).statusEffects = w.statusEffects from
      fun w m => rfl]
    exact tickEffect_statusEffects v p.1
  · exact tickEffect_statusEffects v p.1

theorem tickAndLog_baseAttack (v : Unit) (p : StatusEffect × Int) :
    (tickAndLog v p).baseAttack = v.baseAttack := by
  unfold tickAndLog
  split
  · exact tickEffect_baseAttack v p.1
  · exact tickEffect_baseAttack v p.1

/-- If the ticked effect is neither STRENGTH_UP nor WEAKNESS, the tick
leaves `currentAttack` alone. -/
theorem tickAndLog_currentAttack (v : Unit) (p : StatusEffect × Int)
    (h : ¬(p.1 = StatusEffect.STRENGTH_UP ∨ p.1 = StatusEffect.WEAKNESS)) :
    (tickAndLog v p).currentAttack = v.currentAttack := by
  have hcore : (tickEffect v p.1).currentAttack = v.currentAttack := by
    rcases hh : p.1 <;> simp only [tickEffect, takeDamage_currentAttack] <;>
      first
        | rfl
        | (exact absurd (Or.inl rfl) (hh ▸ h))
        | (exact absurd (Or.inr rfl) (hh ▸ h))
  unfold tickAndLog
  split
  · exact hcore
  · exact hcore

theorem applyResets_baseAttack (rem : List StatusEffect) (v : Unit) :
    (applyResets rem v).baseAttack = v.baseAttack :=
  foldl_field _ Unit.baseAttack (fun w e => by split <;> rfl) rem v

theorem applyResets_statusEffects (rem : List StatusEffect) (v : Unit) :
    (applyResets rem v).statusEffects = v.statusEffects :=
  foldl_field _ Unit.statusEffects (fun w e => by split <;> rfl) rem v

theorem foldl_field_mem {α β : Type} (f : Unit → α → Unit) (g : Unit → β) :
    ∀ (l : List α), (∀ v a, a ∈ l → g (f v a) = g v) → ∀ v, g (l.foldl f v) = g v := by
  intro l
  induction l with
  | nil => intro _ v; rfl
  | cons a as ih =>
    intro h v
    rw [List.foldl_cons, ih (fun w b hb => h w b (List.mem_cons_of_mem a hb)) (f v a),
      h v a (List.mem_cons_self a as)]

theorem process_baseAttack (u : Unit) :
    u.processStatusEffects.baseAttack = u.baseAttack := by
  simp only [Unit.processStatusEffects]
  rw [applyResets_baseAttack]
  exact foldl_field tickAndLog Unit.baseAttack tickAndLog_baseAttack u.statusEffects u

theorem process_statusEffects_eq (u : Unit) :
    u.processStatusEffects.statusEffects =
      eraseAll (expiredOf u.statusEffects) (decEffects u.statusEffects) := by
  simp only [Unit.processStatusEffects]
  rw [applyResets_statusEffects]

/-- An entry whose decremented duration is still positive survives a tick
with its duration decremented. -/
theorem process_mem_of (u : Unit) (hwf : WFStatus u.statusEffects) {e : StatusEffect} {d : Int}
    (hmem : (e, d) ∈ u.statusEffects) (hd : 0 < d - 1) :
    (e, d - 1) ∈ u.processStatusEffects.statusEffects := by
  rw [process_statusEffects_eq]
  apply mem_eraseAll_of_not
  · exact List.mem_map_of_mem (fun p => (p.1, p.2 - 1)) hmem
  · intro hexp
    dsimp only at hexp
    rw [expiredOf_spec] at hexp
    obtain ⟨dd, hdd, hle⟩ := hexp
    have := wf_unique hwf hmem hdd
    omega

/-- Every surviving entry descends from an entry of the previous table,
with duration decremented and still positive. -/
theorem process_mem_inv (u : Unit) {x : StatusEffect × Int}
    (h : x ∈ u.processStatusEffects.statusEffects) :
    ∃ q ∈ u.statusEffects, x = (q.1, q.2 - 1) ∧ 0 < x.2 := by
  rw [process_statusEffects_eq] at h
  obtain ⟨hdec, hnot⟩ := mem_eraseAll _ _ h
  obtain ⟨q, hq, hqx⟩ := List.mem_map.mp hdec
  have hx1 : x.1 = q.1 := (congrArg Prod.fst hqx).symm
  have hx2 : x.2 = q.2 - 1 := (congrArg Prod.snd hqx).symm
  refine ⟨q, hq, ?_, ?_⟩
  · rw [← hqx]
  · by_contra hle
    push_neg at hle
    apply hnot
    rw [hx1, expiredOf_spec]
    exact ⟨q.2, (by exact hq), by omega⟩

theorem process_wf (u : Unit) (hwf : WFStatus u.statusEffects) :
    WFStatus u.processStatusEffects.statusEffects := by
  rw [process_statusEffects_eq]
  have hdec : WFStatus (decEffects u.statusEffects) := by
    unfold WFStatus decEffects
    rw [List.pairwise_map]
    exact hwf
  exact hdec.sublist (eraseAll_sublist _ _)

theorem applyResets_keeps : ∀ (rem : List StatusEffect) (v : Unit),
    v.currentAttack = v.baseAttack →
    (applyResets rem v).currentAttack = (applyResets rem v).baseAttack := by
  intro rem
  induction rem with
  | nil => intro v h; exact h
  | cons e rest ih =>
    intro v h
    have hstep : applyResets (e :: rest) v =
        applyResets rest
          (if e = StatusEffect.STRENGTH_UP ∨ e = StatusEffect.WEAKNESS then
            { v with currentAttack := v.baseAttack }
          else v) := by
      simp only [applyResets, List.foldl_cons]
    rw [hstep]
    apply ih
    split
    · rfl
    · exact h

/-- If some attack-affecting effect expires this tick, the removal loop
leaves `currentAttack = baseAttack`. -/
theorem applyResets_resets : ∀ (rem : List StatusEffect) (v : Unit),
    (∃ e ∈ rem, e = StatusEffect.STRENGTH_UP ∨ e = StatusEffect.WEAKNESS) →
    (applyResets rem v).currentAttack = (applyResets rem v).baseAttack := by
  intro rem
  induction rem with
  | nil =>
    intro v h
    obtain ⟨e, he, _⟩ := h
    simp at he
  | cons e rest ih =>
    intro v h
    have hstep : applyResets (e :: rest) v =
        applyResets rest
          (if e = StatusEffect.STRENGTH_UP ∨ e = StatusEffect.WEAKNESS then
            { v with currentAttack := v.baseAttack }
          else v) := by
      simp only [applyResets, List.foldl_cons]
    rw [hstep]
    obtain ⟨f, hf, hatt⟩ := h
    rcases List.mem_cons.mp hf with h1 | h1
    · apply applyResets_keeps
      rw [if_pos (h1 ▸ hatt)]
    · exact ih _ ⟨f, h1, hatt⟩

theorem applyResets_currentAttack_noattack : ∀ (rem : List StatusEffect) (v : Unit),
    (∀ e ∈ rem, ¬(e = StatusEffect.STRENGTH_UP ∨ e = StatusEffect.WEAKNESS)) →
    (applyResets rem v).currentAttack = v.currentAttack := by
  intro rem
  induction rem with
  | nil => intro v _; rfl
  | cons e rest ih =>
    intro v h
    have hstep : applyResets (e :: rest) v =
        applyResets rest
          (if e = StatusEffect.STRENGTH_UP ∨ e = StatusEffect.WEAKNESS then
            { v with currentAttack := v.baseAttack }
          else v) := by
      simp only [applyResets, List.foldl_cons]
    rw [hstep, if_neg (h e (List.mem_cons_self e rest))]
    exact ih v (fun f hf => h f (List.mem_cons_of_mem e hf))

/-- Expiry of an attack-affecting entry resets `currentAttack` to
`baseAttack` in that very tick. -/
theorem process_reset (u : Unit) {e : StatusEffect} {d : Int}
    (hatt : e = StatusEffect.STRENGTH_UP ∨ e = StatusEffect.WEAKNESS)
    (hmem : (e, d) ∈ u.statusEffects) (hd : d - 1 ≤ 0) :
    u.processStatusEffects.currentAttack = u.baseAttack := by
  simp only [Unit.processStatusEffects]
  rw [applyResets_resets _ _ ⟨e, expiredOf_spec.mpr ⟨d, hmem, hd⟩, hatt⟩,
    applyResets_baseAttack]
  exact foldl_field tickAndLog Unit.baseAttack tickAndLog_baseAttack u.statusEffects u

/-- Without active STRENGTH_UP/WEAKNESS entries a tick leaves
`currentAttack` alone. -/
theorem process_currentAttack_noattack (u : Unit)
    (h : ∀ p ∈ u.statusEffects,
      ¬(p.1 = StatusEffect.STRENGTH_UP ∨ p.1 = StatusEffect.WEAKNESS)) :
    u.processStatusEffects.currentAttack = u.currentAttack := by
  simp only [Unit.processStatusEffects]
  rw [applyResets_currentAttack_noattack _ _ ?hrem]
  case hrem =>
    intro e he
    rw [expiredOf_spec] at he
    obtain ⟨d, hd, _⟩ := he
    exact h (e, d) hd
  exact foldl_field_mem tickAndLog Unit.currentAttack u.statusEffects
    (fun v p hp => tickAndLog_currentAttack v p (h p hp)) u

theorem applyTicks_noattack : ∀ (n : Nat) (u : Unit),
    (∀ p ∈ u.statusEffects,
      ¬(p.1 = StatusEffect.STRENGTH_UP ∨ p.1 = StatusEffect.WEAKNESS)) →
    (applyTicks n u).currentAttack = u.currentAttack := by
  intro n
  induction n with
  | zero => intro u _; rfl
  | succ n ih =>
    intro u h
    have hpres : ∀ p ∈ u.processStatusEffects.statusEffects,
        ¬(p.1 = StatusEffect.STRENGTH_UP ∨ p.1 = StatusEffect.WEAKNESS) := by
      intro p hp
      obtain ⟨q, hq, heq, _⟩ := process_mem_inv u hp
      have hh := h q hq
      rw [heq]
      exact hh
    show (applyTicks n u.processStatusEffects).currentAttack = u.currentAttack
    rw [ih u.processStatusEffects hpres, process_currentAttack_noattack u h]

/-- Core expiry argument: if the longest-lasting attack-affecting entry has
duration `d ≤ n` (with all attack-affecting entries bounded by `d`),
then after `n` ticks `currentAttack` has been reset to `baseAttack`. -/
theorem ticks_to_base : ∀ (n : Nat) (u : Unit), WFStatus u.statusEffects →
    ∀ (e : StatusEffect) (d : Int),
      (e = StatusEffect.STRENGTH_UP ∨ e = StatusEffect.WEAKNESS) →
      (e, d) ∈ u.statusEffects → 1 ≤ d → d ≤ (n : Int) →
      (∀ p ∈ u.statusEffects,
        (p.1 = StatusEffect.STRENGTH_UP ∨ p.1 = StatusEffect.WEAKNESS) → p.2 ≤ d) →
      (applyTicks n u).currentAttack = u.baseAttack := by
  intro n
  induction n with
  | zero =>
    intro u _ e d _ _ h1 h2 _
    have : ((0 : Nat) : Int) = 0 := rfl
    omega
  | succ n ih =>
    intro u hwf e d hatt hmem h1 h2 hbnd
    by_cases hd : d ≤ 1
    · have hreset := process_reset u hatt hmem (by omega)
      have hnone : ∀ p ∈ u.processStatusEffects.statusEffects,
          ¬(p.1 = StatusEffect.STRENGTH_UP ∨ p.1 = StatusEffect.WEAKNESS) := by
        intro p hp hpat
        obtain ⟨q, hq, heq, hpos⟩ := process_mem_inv u hp
        have hq1 : p.1 = q.1 := by rw [heq]
        have hq2 : p.2 = q.2 - 1 := by rw [heq]
        have := hbnd q hq (hq1 ▸ hpat)
        omega
      show (applyTicks n u.processStatusEffects).currentAttack = u.baseAttack
      rw [applyTicks_noattack n u.processStatusEffects hnone, hreset]
    · push_neg at hd
      have hwf' := process_wf u hwf
      have hmem' : (e, d - 1) ∈ u.processStatusEffects.statusEffects :=
        process_mem_of u hwf hmem (by omega)
      have hbnd' : ∀ p ∈ u.processStatusEffects.statusEffects,
          (p.1 = StatusEffect.STRENGTH_UP ∨ p.1 = StatusEffect.WEAKNESS) → p.2 ≤ d - 1 := by
        intro p hp hpat
        obtain ⟨q, hq, heq, hpos⟩ := process_mem_inv u hp
        have hq1 : p.1 = q.1 := by rw [heq]
        have hq2 : p.2 = q.2 - 1 := by rw [heq]
        have := hbnd q hq (hq1 ▸ hpat)
        omega
      have hcast : ((n : Int)) + 1 = ((Nat.succ n : Nat) : Int) := by push_cast; ring
      have := ih u.processStatusEffects hwf' e (d - 1) hatt hmem' (by omega) (by omega) hbnd'
      show (applyTicks n u.processStatusEffects).currentAttack = u.baseAttack
      rw [this, process_baseAttack]

theorem addStatus_statusEffects (u : Unit) (e : StatusEffect) (d : Int) (src : String) :
    (u.addStatus e d src).statusEffects = insertStatus e d u.statusEffects := rfl

theorem addStatus_baseAttack (u : Unit) (e : StatusEffect) (d : Int) (src : String) :
    (u.addStatus e d src).baseAttack = u.baseAttack := rfl

/-- C8: on any unit with a well-formed status table, applying STRENGTH_UP
(duration `d1 ≥ 1`) and WEAKNESS (duration `d2 ≥ 1`) in either order and
then ticking `max d1 d2` times leaves `currentAttack` exactly equal to
`baseAttack` — the buff/debuff pair leaves no residue after expiry. -/
theorem C8_strength_weakness_roundtrip (u : Unit) (d1 d2 : Int) (s1 s2 : String)
    (hwf : WFStatus u.statusEffects) (h1 : 1 ≤ d1) (h2 : 1 ≤ d2) :
    (applyTicks (max d1 d2).toNat
      ((u.addStatus StatusEffect.STRENGTH_UP d1 s1).addStatus
        StatusEffect.WEAKNESS d2 s2)).currentAttack = u.baseAttack ∧
    (applyTicks (max d1 d2).toNat
      ((u.addStatus StatusEffect.WEAKNESS d2 s2).addStatus
        StatusEffect.STRENGTH_UP d1 s1)).currentAttack = u.baseAttack := by
  have hcast : (((max d1 d2).toNat : Nat) : Int) = max d1 d2 :=
    Int.toNat_of_nonneg (by omega)
  constructor
  · set v := (u.addStatus StatusEffect.STRENGTH_UP d1 s1).addStatus StatusEffect.WEAKNESS d2 s2
      with hv
    have hwfmid : WFStatus (insertStatus StatusEffect.STRENGTH_UP d1 u.statusEffects) :=
      insertStatus_wf _ _ _ hwf
    have hwfv : WFStatus v.statusEffects := insertStatus_wf _ _ _ hwfmid
    have hmemW : (StatusEffect.WEAKNESS, d2) ∈ v.statusEffects :=
      self_mem_insertStatus _ _ _
    have hmemS : (StatusEffect.STRENGTH_UP, d1) ∈ v.statusEffects :=
      mem_insertStatus_of_ne (by simp) (self_mem_insertStatus _ _ _)
    have hbnd : ∀ p ∈ v.statusEffects,
        (p.1 = StatusEffect.STRENGTH_UP ∨ p.1 = StatusEffect.WEAKNESS) →
        p.2 ≤ max d1 d2 := by
      intro p hp hpat
      rcases mem_insertStatus_strong hwfmid hp with h | ⟨hmid, hne⟩
      · rw [h]; dsimp only; omega
      · rcases mem_insertStatus_strong hwf hmid with h | ⟨horig, hne2⟩
        · rw [h]; dsimp only; omega
        · rcases hpat with h | h
          · exact absurd h hne2
          · exact absurd h hne
    rcases le_total d1 d2 with hle | hle
    · have := ticks_to_base (max d1 d2).toNat v hwfv StatusEffect.WEAKNESS d2
        (Or.inr rfl) hmemW h2 (by omega) (by intro p hp hpat; have := hbnd p hp hpat; omega)
      rw [this]
      rfl
    · have := ticks_to_base (max d1 d2).toNat v hwfv StatusEffect.STRENGTH_UP d1
        (Or.inl rfl) hmemS h1 (by omega) (by intro p hp hpat; have := hbnd p hp hpat; omega)
      rw [this]
      rfl
  · set v := (u.addStatus StatusEffect.WEAKNESS d2 s2).addStatus StatusEffect.STRENGTH_UP d1 s1
      with hv
    have hwfmid : WFStatus (insertStatus StatusEffect.WEAKNESS d2 u.statusEffects) :=
      insertStatus_wf _ _ _ hwf
    have hwfv : WFStatus v.statusEffects := insertStatus_wf _ _ _ hwfmid
    have hmemS : (StatusEffect.STRENGTH_UP, d1) ∈ v.statusEffects :=
      self_mem_insertStatus _ _ _
    have hmemW : (StatusEffect.WEAKNESS, d2) ∈ v.statusEffects :=
      mem_insertStatus_of_ne (by simp) (self_mem_insertStatus _ _ _)
    have hbnd : ∀ p ∈ v.statusEffects,
        (p.1 = StatusEffect.STRENGTH_UP ∨ p.1 = StatusEffect.WEAKNESS) →
        p.2 ≤ max d1 d2 := by
      intro p hp hpat
      rcases mem_insertStatus_strong hwfmid hp with h | ⟨hmid, hne⟩
      · rw [h]; dsimp only; omega
      · rcases mem_insertStatus_strong hwf hmid with h | ⟨horig, hne2⟩
        · rw [h]; dsimp only; omega
        · rcases hpat with h | h
          · exact absurd h hne
          · exact absurd h hne2
    rcases le_total d1 d2 with hle | hle
    · have := ticks_to_base (max d1 d2).toNat v hwfv StatusEffect.WEAKNESS d2
        (Or.inr rfl) hmemW h2 (by omega) (by intro p hp hpat; have := hbnd p hp hpat; omega)
      rw [this]
      rfl
    · have := ticks_to_base (max d1 d2).toNat v hwfv StatusEffect.STRENGTH_UP d1
        (Or.inl rfl) hmemS h1 (by omega) (by intro p hp hpat; have := hbnd p hp hpat; omega)
      rw [this]
      rfl

/-- C8 witness: a fresh Warrior with both effects (durations 3 and 2) is
back at base attack 20 after three ticks. -/
theorem C8_strength_weakness_roundtrip_witness :
    WFStatus (mkWarrior ("H")).statusEffects ∧ (1 : Int) ≤ 3 ∧ (1 : Int) ≤ 2 ∧
    (applyTicks ((max (3 : Int) 2).toNat)
      (((mkWarrior ("H")).addStatus StatusEffect.STRENGTH_UP 3 ("a")).addStatus
        StatusEffect.WEAKNESS 2 ("b"))).currentAttack = (mkWarrior ("H")).baseAttack :=
  ⟨List.Pairwise.nil, by decide, by decide,
    (C8_strength_weakness_roundtrip (mkWarrior ("H")) 3 2 ("a") ("b")
      List.Pairwise.nil (by decide) (by decide)).1⟩

/-- C9 counterexample: WEAKNESS inserted first, STRENGTH_UP second.  The
spec's insertion-order pass would apply WEAKNESS then STRENGTH_UP,
leaving `currentAttack = 30`; the code iterates the map in key order
(STRENGTH_UP before WEAKNESS) and leaves `currentAttack = 15`. -/
theorem C9_counterexample :
    ((((mkWarrior ("H")).addStatus StatusEffect.WEAKNESS 3 ("x")).addStatus
        StatusEffect.STRENGTH_UP 3 ("y")).processStatusEffects).currentAttack = 15 ∧
    (processInInsertionOrder [StatusEffect.WEAKNESS, StatusEffect.STRENGTH_UP]
      (mkWarrior ("H"))).currentAttack = 30 ∧
    (15 : Int) ≠ 30 := by
  refine ⟨?_, ?_, ?_⟩ <;> decide

/-- Inserting two distinct effects commutes: the resulting map does not
depend on the insertion order. -/
theorem insertStatus_comm (e1 e2 : StatusEffect) (d1 d2 : Int) (hne : e1 ≠ e2) :
    ∀ L : List (StatusEffect × Int),
      insertStatus e2 d2 (insertStatus e1 d1 L) =
        insertStatus e1 d1 (insertStatus e2 d2 L) := by
  have hkey : e1.key ≠ e2.key := fun h => hne (key_injective _ _ h)
  intro L
  induction L with
  | nil =>
    rcases Nat.lt_trichotomy e1.key e2.key with h | h | h
    · have h1 : ¬ e2.key < e1.key := by omega
      have h2 : e2.key ≠ e1.key := by omega
      simp [insertStatus, h, h1, h2, hkey]
    · exact absurd h hkey
    · have h1 : ¬ e1.key < e2.key := by omega
      have h2 : e2.key ≠ e1.key := by omega
      simp [insertStatus, h, h1, h2, hkey]
  | cons p rest ih =>
    rcases Nat.lt_trichotomy e1.key p.1.key with ha | ha | ha <;>
      rcases Nat.lt_trichotomy e2.key p.1.key with hb | hb | hb
    · rcases Nat.lt_trichotomy e1.key e2.key with h | h | h
      · have n1 : ¬ e2.key < e1.key := by omega
        have n2 : e2.key ≠ e1.key := by omega
        simp [insertStatus, ha, hb, h, n1, n2, hkey]
      · exact absurd h hkey
      · have n1 : ¬ e1.key < e2.key := by omega
        have n2 : e2.key ≠ e1.key := by omega
        simp [insertStatus, ha, hb, h, n1, n2, hkey]
    · have n1 : ¬ e2.key < e1.key := by omega
      have n2 : e2.key ≠ e1.key := by omega
      have n3 : e1.key < e2.key := by omega
      have n4 : ¬ p.1.key < e1.key := by omega
      have n5 : p.1.key ≠ e1.key := by omega
      simp [insertStatus, ha, hb, n1, n2, n3, n4, n5, hkey]
    · have n1 : ¬ e2.key < e1.key := by omega
      have n2 : e2.key ≠ e1.key := by omega
      have n3 : e1.key < e2.key := by omega
      have n4 : ¬ e2.key < p.1.key := by omega
      have n5 : e2.key ≠ p.1.key := by omega
      simp [insertStatus, ha, hb, n1, n2, n3, n4, n5, hkey]
    · have n1 : ¬ e1.key < e2.key := by omega
      have n2 : e1.key ≠ e2.key := by omega
      have n3 : e2.key < e1.key := by omega
      have n4 : ¬ p.1.key < e2.key := by omega
      have n5 : p.1.key ≠ e2.key := by omega
      simp [insertStatus, ha, hb, n1, n2, n3, n4, n5, hkey]
    · omega
    · have n1 : ¬ e2.key < e1.key := by omega
      have n2 : e2.key ≠ e1.key := by omega
      have n3 : e1.key < e2.key := by omega
      have n4 : ¬ e2.key < p.1.key := by omega
      have n5 : e2.key ≠ p.1.key := by omega
      simp [insertStatus, ha, hb, n1, n2, n3, n4, n5, hkey]
    · have n1 : ¬ e1.key < e2.key := by omega
      have n2 : e1.key ≠ e2.key := by omega
      have n3 : e2.key < e1.key := by omega
      have n4 : ¬ e1.key < p.1.key := by omega
      have n5 : e1.key ≠ p.1.key := by omega
      simp [insertStatus, ha, hb, n1, n2, n3, n4, n5, hkey]
    · have n1 : ¬ e1.key < e2.key := by omega
      have n2 : e1.key ≠ e2.key := by omega
      have n3 : e2.key < e1.key := by omega
      have n4 : ¬ e1.key < p.1.key := by omega
      have n5 : e1.key ≠ p.1.key := by omega
      simp [insertStatus, ha, hb, n1, n2, n3, n4, n5, hkey]
    · simp only [insertStatus, if_neg (by omega : ¬ e1.key < p.1.key),
        if_neg (by omega : ¬ e1.key = p.1.key), if_neg (by omega : ¬ e2.key < p.1.key),
        if_neg (by omega : ¬ e2.key = p.1.key)]
      rw [ih]

/-- C9 amended: the tick pass of `processStatusEffects` runs over the
status table in ascending enum-key order — the `std::map` iteration
order — not in insertion order: the table produced by any sequence of
`addStatus` calls is strictly key-sorted, and for distinct effects the
table is independent of the insertion order. -/
theorem C9_iteration_key_order (ops : List (StatusEffect × Int × String)) (u : Unit)
    (e1 e2 : StatusEffect) (d1 d2 : Int) (s1 s2 : String)
    (hwf : WFStatus u.statusEffects) (hne : e1 ≠ e2) :
    WFStatus ((ops.foldl (fun v o => v.addStatus o.1 o.2.1 o.2.2) u).statusEffects) ∧
    ((u.addStatus e1 d1 s1).addStatus e2 d2 s2).statusEffects =
      ((u.addStatus e2 d2 s2).addStatus e1 d1 s1).statusEffects := by
  constructor
  · induction ops generalizing u with
    | nil => exact hwf
    | cons o rest ih =>
      rw [List.foldl_cons]
      exact ih (u.addStatus o.1 o.2.1 o.2.2) (insertStatus_wf _ _ _ hwf)
  · exact insertStatus_comm e1 e2 d1 d2 hne u.statusEffects

/-- C9 witness: a two-insertion history on a fresh Warrior. -/
theorem C9_iteration_key_order_witness :
    WFStatus (mkWarrior ("H")).statusEffects ∧
    StatusEffect.WEAKNESS ≠ StatusEffect.STRENGTH_UP ∧
    WFStatus (([(StatusEffect.WEAKNESS, (3 : Int), ("x")),
        (StatusEffect.STRENGTH_UP, (3 : Int), ("y"))].foldl
          (fun v o => v.addStatus o.1 o.2.1 o.2.2) (mkWarrior ("H"))).statusEffects) :=
  ⟨List.Pairwise.nil, by decide,
    (C9_iteration_key_order
      [(StatusEffect.WEAKNESS, (3 : Int), ("x")), (StatusEffect.STRENGTH_UP, (3 : Int), ("y"))]
      (mkWarrior ("H")) StatusEffect.WEAKNESS StatusEffect.STRENGTH_UP 3 3 ("x") ("y")
      List.Pairwise.nil (by decide)).1⟩

/-- Overwrite semantics of `map::operator[]`: after `insertStatus e d` the
unique entry for `e` carries exactly duration `d`. -/
theorem filter_insertStatus (e : StatusEffect) (d : Int) :
    ∀ L : List (StatusEffect × Int), WFStatus L →
      (insertStatus e d L).filter (fun p => p.1 == e) = [(e, d)] := by
  intro L
  induction L with
  | nil =>
    intro _
    simp [insertStatus]
  | cons p rest ih =>
    intro hwf
    rw [WFStatus, List.pairwise_cons] at hwf
    obtain ⟨hp, hrest⟩ := hwf
    have hnil : ∀ (l : List (StatusEffect × Int)),
        (∀ q ∈ l, e.key < q.1.key) → l.filter (fun p => p.1 == e) = [] := by
      intro l hl
      rw [List.filter_eq_nil_iff]
      intro q hq
      have := hl q hq
      simp only [beq_iff_eq]
      intro hc
      rw [hc] at this
      omega
    simp only [insertStatus]
    split
    · rename_i hlt
      rw [List.filter_cons_of_pos (by simp), hnil (p :: rest) ?hall]
      case hall =>
        intro q hq
        rcases List.mem_cons.mp hq with h | h
        · rw [h]; exact hlt
        · have := hp q h
          omega
    · split
      · rename_i hge hkeq
        rw [List.filter_cons_of_pos (by simp), hnil rest ?hall]
        case hall =>
          intro q hq
          have := hp q hq
          omega
      · rename_i hge hkne
        rw [List.filter_cons_of_neg ?hne, ih hrest]
        case hne =>
          simp only [beq_iff_eq]
          intro hc
          exact hkne (congrArg StatusEffect.key hc).symm

/-- C10: `addStatus` overwrites: on a well-formed table the new entry for
the effect carries exactly the newly supplied duration (never the sum),
the table stays well-formed (hence at most one entry per kind), and all
other entries are preserved. -/
theorem C10_addStatus_overwrites (u : Unit) (e : StatusEffect) (d : Int) (src : String)
    (hwf : WFStatus u.statusEffects) :
    (u.addStatus e d src).statusEffects.filter (fun p => p.1 == e) = [(e, d)] ∧
    WFStatus (u.addStatus e d src).statusEffects ∧
    (∀ p ∈ u.statusEffects, p.1 ≠ e → p ∈ (u.addStatus e d src).statusEffects) :=
  ⟨filter_insertStatus e d u.statusEffects hwf,
    insertStatus_wf e d u.statusEffects hwf,
    fun _ hp hne => mem_insertStatus_of_ne hne hp⟩

/-- C10 witness: re-applying POISON with duration 2 over an active
POISON(5) leaves exactly one POISON entry, with duration 2. -/
theorem C10_addStatus_overwrites_witness :
    WFStatus ((mkWarrior ("H")).addStatus StatusEffect.POISON 5 ("a")).statusEffects ∧
    (((mkWarrior ("H")).addStatus StatusEffect.POISON 5 ("a")).addStatus
        StatusEffect.POISON 2 ("b")).statusEffects.filter
      (fun p => p.1 == StatusEffect.POISON) = [(StatusEffect.POISON, 2)] :=
  ⟨insertStatus_wf _ _ _ List.Pairwise.nil,
    (C10_addStatus_overwrites ((mkWarrior ("H")).addStatus StatusEffect.POISON 5 ("a"))
      StatusEffect.POISON 2 ("b") (insertStatus_wf _ _ _ List.Pairwise.nil)).1⟩

end WHG
